import Mathlib

/-!
A shallow embedding of the `simul` discrete-time multi-agent simulation kernel
(`src/lib.rs`, `src/agent.rs`, `src/message.rs`) and of its search strategies
(`src/experiment.rs`), together with proofs about the embedded definitions.

Conventions of the embedding:
* `DiscreteTime` (Rust `u64`) is modelled as `Nat`; the kernel only ever
  increments time by one and adds sleep durations, so `u64` overflow is not
  reachable in any statement proved here.
* `VecDeque<Message>` is modelled as `List Message` with the head of the list
  as the front of the deque (`pop_front` = `head?`/`tail`,
  `push_back` = append, `push_front` = cons).
* `HashMap<String, V>` values built by `collect` are modelled as the raw
  association list of inserted pairs, with lookup returning the value of the
  most recently inserted pair for the key (the overwrite semantics of
  `HashMap::from_iter`).
* A trait object `Box<dyn Agent>` is modelled by the structure `Agent A`:
  a fixed id string (every agent in the repository stores its id and returns
  it unchanged from `id()`), a behaviour-private internal state of type `A`,
  and the two trait methods as pure functions from the internal state and the
  context view to a result record (new internal state, issued commands in
  issue order, and the final `message_processing_status` of the context).
* The Rust halt predicate `fn(&Simulation) -> bool` receives the whole
  simulation; a Lean structure cannot contain a function over itself, so the
  predicate is modelled over the observable projection `SimView` (time, mode,
  roster ids and per-agent states), which covers every halt predicate in the
  repository and in the spec.
* Panics (`unwrap` on `None`) are modelled with `Except String`, indexing
  that cannot fail under the construction invariant is modelled with `get?`.
-/

/-- `src/message.rs`: control interrupt variants. -/
inductive Interrupt where
  | HaltSimulation : String → Interrupt
deriving DecidableEq

/-- `src/message.rs`: a Message exchanged between agents.  `custom_payload`
bytes are modelled as a list of naturals. -/
structure Message where
  queued_time : Nat
  completed_time : Option Nat
  source : String
  destination : String
  custom_payload : Option (List Nat)
  interrupt : Option Interrupt
deriving DecidableEq

instance : Inhabited Message :=
  ⟨⟨0, none, "", "", none, none⟩⟩

/-- `src/agent.rs`: the mode of an agent. -/
inductive AgentMode where
  | Proactive
  | Reactive
  | AsleepUntil : Nat → AgentMode
  | Dead
deriving DecidableEq

/-- `src/agent.rs`: processing status an agent may report for a message. -/
inductive MessageProcessingStatus where
  | Initialized
  | Completed
  | InProgress
  | Failed
deriving DecidableEq

/-- `src/agent.rs`: actions an agent can request through its context. -/
inductive AgentCommandType where
  | SendMessage : Message → AgentCommandType
  | Sleep : Nat → AgentCommandType
  | HaltSimulation : String → AgentCommandType
deriving DecidableEq

/-- `src/agent.rs`: a command paired with the issuing agent handle. -/
structure AgentCommand where
  ty : AgentCommandType
  agent_handle : Nat
deriving DecidableEq

/-- `src/agent.rs` / `src/lib.rs`: the per-agent state owned by the kernel. -/
structure AgentState where
  mode : AgentMode
  wake_mode : AgentMode
  queue : List Message
  consumed : List Message
  produced : List Message
deriving DecidableEq

/-- `src/lib.rs`: internal per-agent telemetry. -/
structure AgentMetadata where
  queue_depth_metrics : List Nat
  asleep_cycle_count : Nat
deriving DecidableEq

/-- `src/lib.rs`: the mode of the whole simulation. -/
inductive SimulationMode where
  | Constructed
  | Running
  | Completed
  | Failed
deriving DecidableEq

/-- The read view an agent receives through its `AgentContext` (its id, the
current tick, and its own state after the front of its queue was popped).
Command emission and the processing status are modelled in the result record
`AgentResult` rather than as mutation of the context. -/
structure AgentCtx where
  id : String
  time : Nat
  state : AgentState

/-- The observable outcome of one behaviour invocation: the new
behaviour-private state (the `&mut self` of the Rust trait method), the
commands pushed onto `ctx.commands` in issue order, and the final value of
`ctx.message_processing_status` (initialised by the kernel to
`Initialized`). -/
structure AgentResult (A : Type) where
  self : A
  commands : List AgentCommandType
  status : MessageProcessingStatus

/-- A `Box<dyn Agent>`: fixed id, behaviour-private state, and the two trait
methods. -/
structure Agent (A : Type) where
  id : String
  internal : A
  on_message : A → AgentCtx → Message → AgentResult A
  on_tick : A → AgentCtx → AgentResult A

/-- Lookup in the association-list model of `HashMap`: the value of the most
recently inserted pair with the given key. -/
def hmGet {β : Type} : List (String × β) → String → Option β
  | [], _ => none
  | p :: rest, k =>
    match hmGet rest k with
    | some v => some v
    | none => if p.1 == k then some p.2 else none

/-- In-place modification of the entry a lookup would hit (`get_mut`). -/
def hmModify {β : Type} : List (String × β) → String → (β → β) → List (String × β)
  | [], _, _ => []
  | p :: rest, k, f =>
    match hmGet rest k with
    | some _ => p :: hmModify rest k f
    | none => if p.1 == k then (p.1, f p.2) :: rest else p :: hmModify rest k f

/-- Update the element at an index with a function; identity out of range
(in the Rust source such an index would be a panic or is unreachable by the
construction invariant; every theorem below supplies in-range indices). -/
def listUpdate {α : Type} : List α → Nat → (α → α) → List α
  | [], _, _ => []
  | a :: t, 0, f => f a :: t
  | a :: t, n + 1, f => a :: listUpdate t n f

theorem listUpdate_length {α : Type} (l : List α) (i : Nat) (f : α → α) :
    (listUpdate l i f).length = l.length := by
  induction l generalizing i with
  | nil => rfl
  | cons a t ih =>
    cases i with
    | zero => rfl
    | succ n => simpa [listUpdate] using ih n

theorem get?_listUpdate_eq {α : Type} (l : List α) (i : Nat) (f : α → α) :
    (listUpdate l i f).get? i = (l.get? i).map f := by
  induction l generalizing i with
  | nil => cases i <;> rfl
  | cons a t ih =>
    cases i with
    | zero => rfl
    | succ n => simpa [listUpdate] using ih n

theorem get?_listUpdate_ne {α : Type} (l : List α) (i j : Nat) (f : α → α)
    (h : j ≠ i) : (listUpdate l i f).get? j = l.get? j := by
  induction l generalizing i j with
  | nil => cases i <;> rfl
  | cons a t ih =>
    cases i with
    | zero =>
      cases j with
      | zero => exact absurd rfl h
      | succ m => rfl
    | succ n =>
      cases j with
      | zero => rfl
      | succ m =>
        simpa [listUpdate] using ih n m (fun hc => h (by simpa using hc))

/-- The observable projection of a `Simulation` that the halt predicate reads
(the Rust predicate receives `&Simulation`; every predicate in the repository
reads only the time, the mode, and the per-agent states). -/
structure SimView where
  time : Nat
  mode : SimulationMode
  agentIds : List String
  agentStates : List AgentState

/-- `src/lib.rs`: the root simulation aggregate. -/
structure Simulation (A : Type) where
  agents : List (Agent A)
  halt_check : SimView → Bool
  time : Nat
  enable_queue_depth_metric : Bool
  enable_agent_asleep_cycles_metric : Bool
  mode : SimulationMode
  agent_metadata_hash_table : List (String × AgentMetadata)
  agent_id_index_map : List (String × Nat)
  agent_states : List AgentState

/-- `src/agent.rs`: starting options of one agent. -/
structure AgentOptions where
  initial_mode : AgentMode
  wake_mode : AgentMode
  initial_queue : List Message

/-- `src/agent.rs`: an agent paired with its starting options. -/
structure AgentInitializer (A : Type) where
  agent : Agent A
  options : AgentOptions

/-- `src/lib.rs`: the parameters to create a Simulation. -/
structure SimulationParameters (A : Type) where
  agent_initializers : List (AgentInitializer A)
  halt_check : SimView → Bool
  starting_time : Nat
  enable_queue_depth_metrics : Bool
  enable_agent_asleep_cycles_metric : Bool

/-- The enumerate-and-collect construction of `agent_id_index_map`:
the pair list `(id(agent_k), k)` for `k = offset, offset+1, ...`. -/
def buildIndexMapFrom {A : Type} : Nat → List (Agent A) → List (String × Nat)
  | _, [] => []
  | k, ag :: rest => (ag.id, k) :: buildIndexMapFrom (k + 1) rest

/-- `Simulation::new` (`src/lib.rs`). -/
def Simulation.new {A : Type} (parameters : SimulationParameters A) : Simulation A :=
  { mode := SimulationMode.Constructed
    agent_metadata_hash_table := parameters.agent_initializers.map
      (fun ini => (ini.agent.id, { queue_depth_metrics := [], asleep_cycle_count := 0 }))
    agents := parameters.agent_initializers.map (fun ini => ini.agent)
    halt_check := parameters.halt_check
    time := parameters.starting_time
    enable_queue_depth_metric := parameters.enable_queue_depth_metrics
    enable_agent_asleep_cycles_metric := parameters.enable_agent_asleep_cycles_metric
    agent_id_index_map := buildIndexMapFrom 0 (parameters.agent_initializers.map (fun ini => ini.agent))
    agent_states := parameters.agent_initializers.map (fun ini =>
      { mode := ini.options.initial_mode
        wake_mode := ini.options.wake_mode
        queue := ini.options.initial_queue
        consumed := []
        produced := [] }) }

/-- The observable view handed to the halt predicate. -/
def Simulation.view {A : Type} (s : Simulation A) : SimView :=
  { time := s.time, mode := s.mode
    agentIds := s.agents.map (fun a => a.id)
    agentStates := s.agent_states }

/-- `Simulation::agent_state`: map lookup with `?`, then an index that is in
range by the construction invariant (`get_unchecked` in the source). -/
def agent_state {A : Type} (s : Simulation A) (id : String) : Option AgentState :=
  match hmGet s.agent_id_index_map id with
  | none => none
  | some idx => s.agent_states.get? idx

/-- `Simulation::agent_state_mut`: the source calls `.unwrap()` on the map
lookup, so a missing name is a panic, modelled as `Except.error`. -/
def agent_state_mut {A : Type} (s : Simulation A) (id : String) : Except String AgentState :=
  match hmGet s.agent_id_index_map id with
  | none => Except.error ("unwrap on a None value")
  | some idx =>
    match s.agent_states.get? idx with
    | some st => Except.ok st
    | none => Except.error ("index out of range")

/-- `Simulation::consumed_for_agent`: find the agent by name (`?`), then read
its state through `agent_state` (`?`). -/
def consumed_for_agent {A : Type} (s : Simulation A) (name : String) : Option (List Message) :=
  match s.agents.find? (fun a => a.id == name) with
  | none => none
  | some agent => (agent_state s agent.id).map (fun st => st.consumed)

/-- `Simulation::produced_for_agent`: find the agent by name (`?`), then
`agent_state(..).unwrap()`; once the find succeeded the unwrap cannot fire
because the index map contains every roster id, so the dead panic branch is
rendered as `none`. -/
def produced_for_agent {A : Type} (s : Simulation A) (name : String) : Option (List Message) :=
  match s.agents.find? (fun a => a.id == name) with
  | none => none
  | some agent =>
    match agent_state s agent.id with
    | some st => some st.produced
    | none => none

/-- `Simulation::queue_depth_metrics`. -/
def queue_depth_metrics {A : Type} (s : Simulation A) (id : String) : Option (List Nat) :=
  (hmGet s.agent_metadata_hash_table id).map (fun md => md.queue_depth_metrics)

/-- `Simulation::asleep_cycle_count`. -/
def asleep_cycle_count {A : Type} (s : Simulation A) (id : String) : Option Nat :=
  (hmGet s.agent_metadata_hash_table id).map (fun md => md.asleep_cycle_count)

/-- The agent-local part of one dispatch slot of the tick loop
(`Simulation::run`, the body of `for i in 0..self.agents.len()`):
pop the front of the queue, build the context over the post-pop state, branch
on the mode, and resolve the processing status of a reactive agent.
Returns the updated agent, the updated state of the dispatched slot, the
commands the behaviour issued, and a ghost flag recording whether the user
behaviour (`on_tick` or `on_message`) was invoked; the flag feeds only the
ghost event log and influences no state. -/
def dispatchLocal {A : Type} (time : Nat) (ag : Agent A) (st0 : AgentState) :
    Agent A × AgentState × List AgentCommandType × Bool :=
  let queued_msg := st0.queue.head?
  let st1 : AgentState := { st0 with queue := st0.queue.tail }
  match st1.mode with
  | AgentMode.Proactive =>
    let r := ag.on_tick ag.internal { id := ag.id, time := time, state := st1 }
    ({ ag with internal := r.self }, st1, r.commands, true)
  | AgentMode.Reactive =>
    match queued_msg with
    | none => (ag, st1, [], false)
    | some msg =>
      let r := ag.on_message ag.internal { id := ag.id, time := time, state := st1 } msg
      let st2 : AgentState :=
        match r.status with
        | MessageProcessingStatus.Failed =>
          { st1 with queue := msg :: st1.queue }
        | MessageProcessingStatus.InProgress =>
          { st1 with queue := msg :: st1.queue }
        | MessageProcessingStatus.Initialized =>
          { st1 with consumed := st1.consumed ++ [{ msg with completed_time := some time }] }
        | MessageProcessingStatus.Completed =>
          { st1 with consumed := st1.consumed ++ [{ msg with completed_time := some time }] }
      ({ ag with internal := r.self }, st2, r.commands, true)
  | AgentMode.AsleepUntil _ => (ag, st1, [], false)
  | AgentMode.Dead => (ag, st1, [], false)

/-- One iteration of the per-agent dispatch loop of `Simulation::run`,
threading the simulation, the shared command buffer, and the ghost event log.
The handle of the dispatched slot is looked up by name in
`agent_id_index_map`, exactly as in the source; queue-depth sampling happens
after the pop, and the asleep-cycle metric is incremented in the
`AsleepUntil` arm. -/
def dispatchOne {A : Type}
    (acc : Simulation A × List AgentCommand × List (Nat × Nat)) (i : Nat) :
    Simulation A × List AgentCommand × List (Nat × Nat) :=
  let s := acc.1
  match s.agents.get? i with
  | none => acc
  | some agent =>
    match hmGet s.agent_id_index_map agent.id with
    | none => acc
    | some agent_handle =>
      match s.agent_states.get? agent_handle with
      | none => acc
      | some st0 =>
        let res := dispatchLocal s.time agent st0
        let md1 :=
          if s.enable_queue_depth_metric then
            hmModify s.agent_metadata_hash_table agent.id
              (fun md => { md with
                queue_depth_metrics := md.queue_depth_metrics ++ [st0.queue.tail.length] })
          else s.agent_metadata_hash_table
        let md2 :=
          match st0.mode with
          | AgentMode.AsleepUntil _ =>
            if s.enable_agent_asleep_cycles_metric then
              hmModify md1 agent.id
                (fun md => { md with asleep_cycle_count := md.asleep_cycle_count + 1 })
            else md1
          | _ => md1
        ({ s with
            agents := listUpdate s.agents i (fun _ => res.1)
            agent_states := listUpdate s.agent_states agent_handle (fun _ => res.2.1)
            agent_metadata_hash_table := md2 },
         acc.2.1 ++ res.2.2.1.map (fun ty => { ty := ty, agent_handle := agent_handle }),
         acc.2.2 ++ (if res.2.2.2 then [(s.time, i)] else []))

/-- The whole per-agent dispatch loop of one tick. -/
def dispatchAgents {A : Type} (s : Simulation A) :
    Simulation A × List AgentCommand × List (Nat × Nat) :=
  (List.range s.agents.length).foldl dispatchOne (s, [], [])

/-- `Simulation::wakeup_agents_scheduled_to_wakeup_now`: every agent whose
mode is `AsleepUntil(wakeup_at)` with `time >= wakeup_at` transitions to its
wake mode.  The Rust loop runs over `0..agents.len()`, which equals the
states length by construction. -/
def wakeup_agents_scheduled_to_wakeup_now {A : Type} (s : Simulation A) : Simulation A :=
  { s with agent_states := s.agent_states.map (fun st =>
      match st.mode with
      | AgentMode.AsleepUntil wakeup_at =>
        if wakeup_at ≤ s.time then { st with mode := st.wake_mode } else st
      | _ => st) }

/-- One drained command of `Simulation::process_command_buffer`.
`SendMessage`: look the destination up by name at drain time, append to its
queue when present, and unconditionally append to the produced log of the
issuing handle. `HaltSimulation`: set the simulation mode to `Completed`.
`Sleep`: set the issuing handle to `AsleepUntil(time + ticks)`. -/
def process_one_command {A : Type} (s : Simulation A) (command : AgentCommand) : Simulation A :=
  match command.ty with
  | AgentCommandType.SendMessage message =>
    let s1 :=
      match hmGet s.agent_id_index_map message.destination with
      | some receiver_id =>
        let states1 := listUpdate s.agent_states receiver_id
          (fun st => { st with queue := st.queue ++ [message] })
        { s with agent_states := states1 }
      | none => s
    let states2 := listUpdate s1.agent_states command.agent_handle
      (fun st => { st with produced := st.produced ++ [message] })
    { s1 with agent_states := states2 }
  | AgentCommandType.HaltSimulation _ =>
    { s with mode := SimulationMode.Completed }
  | AgentCommandType.Sleep ticks =>
    let states1 := listUpdate s.agent_states command.agent_handle
      (fun st => { st with mode := AgentMode.AsleepUntil (s.time + ticks) })
    { s with agent_states := states1 }

/-- `Simulation::process_command_buffer`: `while let Some(command) =
command_buffer.pop()` drains the `Vec` from the back, so the commands are
applied in reverse buffer order. -/
def process_command_buffer {A : Type} (s : Simulation A) (command_buffer : List AgentCommand) :
    Simulation A :=
  command_buffer.reverse.foldl process_one_command s

/-- One iteration of the `while` loop body of `Simulation::run`: wake check,
per-agent dispatch, command-buffer drain, time advance.  The second component
is the ghost log of behaviour invocations `(time, agent index)` of this tick.
The Rust `command_buffer` variable lives across iterations but is always
fully drained, so starting each tick from an empty buffer is the same. -/
def tick {A : Type} (s : Simulation A) : Simulation A × List (Nat × Nat) :=
  let s1 := wakeup_agents_scheduled_to_wakeup_now s
  let res := dispatchAgents s1
  let s2 := process_command_buffer res.1 res.2.1
  ({ s2 with time := s2.time + 1 }, res.2.2)

/-- The `while !(self.halt_check)(self)` loop of `Simulation::run`, with
explicit fuel for the shallow embedding of the unbounded loop: fuel
exhaustion stops early (the Rust loop would keep running), so every theorem
about a complete run either supplies enough fuel for the halt predicate to
fire or speaks about the executed prefix. -/
def runAux {A : Type} : Nat → Simulation A → Simulation A × List (Nat × Nat)
  | 0, s => (s, [])
  | fuel + 1, s =>
    if s.halt_check s.view then (s, [])
    else
      let r := tick s
      let r2 := runAux fuel r.1
      (r2.1, r.2 ++ r2.2)

/-- `Simulation::run`: set the mode to `Running`, drive the tick loop, and
set the mode to `Completed` on exit.  Faithful to the source whenever the
halt predicate fires within the supplied fuel. -/
def Simulation.run {A : Type} (fuel : Nat) (s : Simulation A) :
    Simulation A × List (Nat × Nat) :=
  let r := runAux fuel { s with mode := SimulationMode.Running }
  ({ r.1 with mode := SimulationMode.Completed }, r.2)

/-- `agent.rs::periodic_producing_agent`: a proactive agent that every tick
requests `sleep_for(period)` and `send(target, None)` (in this issue order).
`ctx.send` builds the message from the context id, the current time, and the
payload, with every other field default.  The behaviour-private fields
`period` and `target` are immutable in the source, so they are captured in
the behaviour functions and the mutable internal state is `Unit`. -/
def periodic_producing_agent (name : String) (period : Nat) (target : String) :
    AgentInitializer Unit :=
  { agent :=
      { id := name
        internal := ()
        on_message := fun _ _ _ =>
          { self := (), commands := [], status := MessageProcessingStatus.Initialized }
        on_tick := fun _ ctx =>
          { self := ()
            commands :=
              [AgentCommandType.Sleep period,
               AgentCommandType.SendMessage
                 { queued_time := ctx.time, completed_time := none, source := ctx.id
                   destination := target, custom_payload := none, interrupt := none }]
            status := MessageProcessingStatus.Initialized } }
    options :=
      { initial_mode := AgentMode.Proactive
        wake_mode := AgentMode.Proactive
        initial_queue := [] } }

/-- `agent.rs::periodic_consuming_agent`: a reactive agent that on each
message requests `sleep_for(period)` and leaves the processing status at its
`Initialized` default.  Options are the `AgentOptions::default()` of the
source: initial mode `Reactive`, wake mode `Reactive`, empty queue. -/
def periodic_consuming_agent (name : String) (period : Nat) : AgentInitializer Unit :=
  { agent :=
      { id := name
        internal := ()
        on_message := fun _ _ _ =>
          { self := (), commands := [AgentCommandType.Sleep period]
            status := MessageProcessingStatus.Initialized }
        on_tick := fun _ _ =>
          { self := (), commands := [], status := MessageProcessingStatus.Initialized } }
    options :=
      { initial_mode := AgentMode.Reactive
        wake_mode := AgentMode.Reactive
        initial_queue := [] } }

/-!
The experiment layer (`src/experiment.rs`).  `ObjectiveScore` is `f64`; the
values the two searches inspect are modelled with `F64`: the IEEE special
values plus finite values carried as exact rationals.  Finite arithmetic is
exact rather than rounded; every theorem below depends only on signs,
comparisons against the `f64::MIN` sentinel, and the special values, none of
which a correctly rounded operation can flip.  The IEEE negative zero is not
modelled (a cooling schedule returning literal `-0.0` behaves like the
negative case, not like the `0.0` case proved here).
-/

/-- A model of the `f64` values reachable by the experiment code. -/
inductive F64 where
  | nan
  | negInf
  | posInf
  | fin : ℚ → F64
deriving DecidableEq

/-- IEEE `<` on the model: any comparison with a NaN is false. -/
def flt : F64 → F64 → Bool
  | F64.nan, _ => false
  | _, F64.nan => false
  | F64.negInf, F64.negInf => false
  | F64.negInf, _ => true
  | F64.posInf, _ => false
  | F64.fin _, F64.posInf => true
  | F64.fin _, F64.negInf => false
  | F64.fin a, F64.fin b => a < b

/-- IEEE `>` as used by `score > high_score`. -/
def fgt (a b : F64) : Bool := flt b a

/-- IEEE negation. -/
def fneg : F64 → F64
  | F64.nan => F64.nan
  | F64.negInf => F64.posInf
  | F64.posInf => F64.negInf
  | F64.fin q => F64.fin (-q)

/-- IEEE subtraction (finite case exact; the sign of the result, which is all
the proofs use, agrees with the rounded `f64` subtraction). -/
def fsub : F64 → F64 → F64
  | F64.nan, _ => F64.nan
  | _, F64.nan => F64.nan
  | F64.posInf, F64.posInf => F64.nan
  | F64.negInf, F64.negInf => F64.nan
  | F64.posInf, _ => F64.posInf
  | F64.negInf, _ => F64.negInf
  | F64.fin _, F64.posInf => F64.negInf
  | F64.fin _, F64.negInf => F64.posInf
  | F64.fin a, F64.fin b => F64.fin (a - b)

/-- IEEE division restricted to the cases the experiment code reaches:
finite/0 gives a signed infinity (NaN for 0/0), finite/finite is exact. -/
def fdiv : F64 → F64 → F64
  | F64.nan, _ => F64.nan
  | _, F64.nan => F64.nan
  | F64.posInf, F64.posInf => F64.nan
  | F64.posInf, F64.negInf => F64.nan
  | F64.negInf, F64.posInf => F64.nan
  | F64.negInf, F64.negInf => F64.nan
  | F64.posInf, F64.fin q => if q < 0 then F64.negInf else F64.posInf
  | F64.negInf, F64.fin q => if q < 0 then F64.posInf else F64.negInf
  | F64.fin _, F64.posInf => F64.fin 0
  | F64.fin _, F64.negInf => F64.fin 0
  | F64.fin a, F64.fin b =>
    if b = 0 then
      (if a = 0 then F64.nan else if a < 0 then F64.negInf else F64.posInf)
    else F64.fin (a / b)

/-- `f64::exp` on the model.  Exact on the special values
(`exp(-inf) = 0`, `exp(inf) = inf`, `exp(nan) = nan`); on finite arguments
the model returns an order surrogate with the two properties every proof
below uses and that the true `exp` has: the result is at least `1` exactly
when the argument is nonnegative, and it is strictly positive and at most
`1` otherwise. -/
def fexp : F64 → F64
  | F64.nan => F64.nan
  | F64.negInf => F64.fin 0
  | F64.posInf => F64.posInf
  | F64.fin q => if 0 ≤ q then F64.fin (1 + q) else F64.fin (1 / (1 - q))

/-- The acceptance decision of `simulated_annealing_experiment`
(`src/experiment.rs` lines 89 to 96): accept unconditionally when
`delta_goodness = current_score - new_score` is negative, otherwise accept
exactly when the uniform draw `u` from `[0, 1)` is below
`exp(-delta_goodness / chaotic_flux)`. -/
def metropolisAccepts (current_score new_score chaotic_flux : F64) (u : ℚ) : Bool :=
  let delta_goodness := fsub current_score new_score
  if flt delta_goodness (F64.fin 0) then true
  else flt (F64.fin u) (fexp (fdiv (fneg delta_goodness) chaotic_flux))

/-- The exact rational value of the `f64::MIN` sentinel that
`monte_carlo_experiment` starts its high score from. -/
def f64min : ℚ := -(2 ^ 1024 - 2 ^ 971)

/-- `experiment.rs::monte_carlo_experiment`.  The construct-and-run-and-score
pipeline of replication `i` is abstracted into `scores i` (the claims
quantify over every objective outcome), and the retained `Simulation` clone
is represented by the index of the replication it came from; the present or
absent shape of the result and the comparison chain are exactly those of the
source: start from `None` and `f64::MIN`, keep the strictly higher score. -/
def monte_carlo_experiment (scores : Nat → F64) (replications_limit : Nat) : Option Nat :=
  ((List.range replications_limit).foldl
    (fun acc i => if fgt (scores i) acc.2 then (some i, scores i) else acc)
    ((none : Option Nat), F64.fin f64min)).1

/-- `experiment.rs::simulated_annealing_experiment`.  The initial-parameter
generator is modelled by the value it returns, the construct-run-score
pipeline by `score_fn`, the `rand::rng().random_range(0.0..1.0)` draws by the
sequence `us` (the draw of iteration `i` is `us i`; the source draws lazily
only in the not-strictly-better branch, which is observationally the same),
and `summon_chaotic_flux` receives `k = replications_limit - chaotic_mana + 1
= i + 1` as in the source.  The loop state is
`(current_params, current_score, best_params, best_score)` and the function
always returns `some best_params`. -/
def simulated_annealing_experiment {P : Type} (initial : P) (perturb : P → P)
    (score_fn : P → F64) (summon_chaotic_flux : Nat → F64) (us : Nat → ℚ)
    (replications_limit : Nat) : Option P :=
  let current_score := score_fn initial
  let final := (List.range replications_limit).foldl
    (fun (acc : P × F64 × P × F64) i =>
      let k := i + 1
      let chaotic_flux := summon_chaotic_flux k
      let new_params := perturb acc.1
      let new_score := score_fn new_params
      if metropolisAccepts acc.2.1 new_score chaotic_flux (us i) then
        if fgt new_score acc.2.2.2 then (new_params, new_score, new_params, new_score)
        else (new_params, new_score, acc.2.2.1, acc.2.2.2)
      else acc)
    (initial, current_score, initial, current_score)
  some final.2.2.1

/-- The roster of the `basic_periodic_test` of `src/lib.rs`: a periodic
producer with period 1 targeting the consumer, then a periodic consumer with
period 1, halt predicate `time == 5`, starting tick 0, metrics off. -/
def basicSim : Simulation Unit :=
  Simulation.new
    { agent_initializers :=
        [periodic_producing_agent "producer" 1 "consumer",
         periodic_consuming_agent "consumer" 1]
      halt_check := fun v => v.time == 5
      starting_time := 0
      enable_queue_depth_metrics := false
      enable_agent_asleep_cycles_metric := false }

/-- C10: for the roster of exactly a periodic producer (period 1, targeting
the consumer) followed by a periodic consumer (period 1), starting tick 0 and
halt predicate `time == 5`, the completed run has a produced count of 5 for
the producer and a consumed count of 4 for the consumer. -/
theorem C10_basic_periodic_counts :
    (produced_for_agent (Simulation.run 6 basicSim).1 "producer").map List.length = some 5 ∧
    (consumed_for_agent (Simulation.run 6 basicSim).1 "consumer").map List.length = some 4 := by
  decide

/-- A roster with a single proactive agent that issues `HaltSimulation` on
every tick, paired with a halt predicate that always returns false. -/
def haltDemoSim : Simulation Unit :=
  Simulation.new
    { agent_initializers :=
        [{ agent :=
             { id := "h"
               internal := ()
               on_message := fun _ _ _ =>
                 { self := (), commands := [], status := MessageProcessingStatus.Initialized }
               on_tick := fun _ _ =>
                 { self := ()
                   commands := [AgentCommandType.HaltSimulation "stop"]
                   status := MessageProcessingStatus.Initialized } }
           options :=
             { initial_mode := AgentMode.Proactive
               wake_mode := AgentMode.Proactive
               initial_queue := [] } }]
      halt_check := fun _ => false
      starting_time := 0
      enable_queue_depth_metrics := false
      enable_agent_asleep_cycles_metric := false }

/-- The state at the top of the `run` loop: mode already set to `Running`. -/
def haltDemoStart : Simulation Unit :=
  { haltDemoSim with mode := SimulationMode.Running }

/-- C1: the agent issues `HaltSimulation` during tick 0 and the drain indeed
sets the mode to `Completed` before the time advance, yet because the `while`
condition of `Simulation::run` consults only the user halt predicate (which
here always returns false), the loop body executes a further full iteration:
the ghost invocation log of two loop iterations is `[(0, 0), (1, 0)]` (the
agent behaviour runs again at time 1) and the clock reaches 2. -/
theorem C1_halt_command_does_not_stop_the_loop :
    (tick haltDemoStart).1.mode = SimulationMode.Completed ∧
    (tick haltDemoStart).1.time = 1 ∧
    (runAux 2 haltDemoStart).2 = [(0, 0), (1, 0)] ∧
    (runAux 2 haltDemoStart).1.time = 2 := by
  decide

/-- A one-agent roster used for the name-lookup queries. -/
def lookupDemoSim : Simulation Unit :=
  Simulation.new
    { agent_initializers :=
        [{ agent :=
             { id := "a"
               internal := ()
               on_message := fun _ _ _ =>
                 { self := (), commands := [], status := MessageProcessingStatus.Initialized }
               on_tick := fun _ _ =>
                 { self := (), commands := [], status := MessageProcessingStatus.Initialized } }
           options :=
             { initial_mode := AgentMode.Reactive
               wake_mode := AgentMode.Reactive
               initial_queue := [] } }]
      halt_check := fun _ => true
      starting_time := 0
      enable_queue_depth_metrics := false
      enable_agent_asleep_cycles_metric := false }

/-- C5: on a name absent from the roster, `consumed_for_agent`,
`produced_for_agent`, `agent_state`, `queue_depth_metrics` and
`asleep_cycle_count` all return an absent result, but `agent_state_mut`
panics (it calls `.unwrap()` on the failed map lookup), modelled as
`Except.error`: the claim fails for `agent_state_mut`. -/
theorem C5_missing_name_lookups :
    consumed_for_agent lookupDemoSim "ghost" = none ∧
    produced_for_agent lookupDemoSim "ghost" = none ∧
    agent_state lookupDemoSim "ghost" = none ∧
    queue_depth_metrics lookupDemoSim "ghost" = none ∧
    asleep_cycle_count lookupDemoSim "ghost" = none ∧
    (agent_state_mut lookupDemoSim "ghost").isOk = false := by
  decide

/-- C2, counterexample: with `current_score = 1`, `new_score = 0` the
candidate is not strictly better (`delta_goodness = 1 >= 0`), the temperature
`-1` is non-positive, and yet the draw `1/2` accepts the candidate — the
acceptance probability `exp(-1 / -1) = e > 1` makes acceptance certain, so
the claim "never accepted when the temperature is zero or negative" is false
for negative temperatures. -/
theorem C2_negative_temperature_accepts :
    fsub (F64.fin 1) (F64.fin 0) = F64.fin 1 ∧ (0 : ℚ) ≤ 1 ∧ (-1 : ℚ) ≤ 0 ∧
    metropolisAccepts (F64.fin 1) (F64.fin 0) (F64.fin (-1)) (1 / 2) = true := by
  refine ⟨?_, by norm_num, by norm_num, ?_⟩
  · simp [fsub]
  · norm_num [metropolisAccepts, fsub, fneg, fdiv, fexp, flt]

/-- C3, counterexample: `simulated_annealing_experiment` returns a present
result even with a replication limit of 0 (the function ends in
`Some(best_params)` unconditionally), and `monte_carlo_experiment` returns an
absent result for a replication limit of 1 when the objective scored the one
replication exactly `f64::MIN` (the strict comparison against the `f64::MIN`
sentinel never succeeds) — both directions of the claimed equivalence fail. -/
theorem C3_return_shapes_violate_iff :
    (simulated_annealing_experiment (0 : Nat) (fun p => p) (fun _ => F64.fin 0)
      (fun _ => F64.fin 1) (fun _ => 0) 0).isSome = true ∧
    monte_carlo_experiment (fun _ => F64.fin f64min) 1 = none := by
  constructor
  · rfl
  · norm_num [monte_carlo_experiment, List.range_succ, fgt, flt, f64min]

/-- C2 (amended): in the acceptance decision of
`simulated_annealing_experiment`, for a candidate that is not strictly better
(`0 <= delta = current_score - new_score`) and a draw `u` from `[0, 1)`:
a temperature of exactly `0.0` never accepts the candidate (the acceptance
probability is `exp(-inf) = 0`, or NaN when `delta = 0`, and a draw is never
below either), but a strictly negative temperature always accepts it (the
exponent `-delta / T` is nonnegative, so the probability is at least 1). -/
theorem C2_zero_temp_rejects_negative_temp_accepts :
    ∀ (cs ns u : ℚ), 0 ≤ cs - ns → 0 ≤ u → u < 1 →
    metropolisAccepts (F64.fin cs) (F64.fin ns) (F64.fin 0) u = false ∧
    (∀ t : ℚ, t < 0 → metropolisAccepts (F64.fin cs) (F64.fin ns) (F64.fin t) u = true) := by
  intro cs ns u hd hu0 hu1
  have hd0 : ¬ (cs - ns < 0) := not_lt.mpr hd
  constructor
  · by_cases h0 : ns - cs = 0
    · simp [metropolisAccepts, fsub, fneg, fdiv, fexp, flt, hd0, h0]
    · have h2 : ns < cs := by
        rcases lt_or_eq_of_le hd with h | h
        · linarith
        · exact absurd (by linarith : ns - cs = 0) h0
      simp [metropolisAccepts, fsub, fneg, fdiv, fexp, flt, hd0, h0, h2, not_lt.mpr hu0]
  · intro t ht
    have htne : ¬ (t = 0) := ne_of_lt ht
    have hq : 0 ≤ (ns - cs) / t :=
      div_nonneg_iff.mpr (Or.inr ⟨by linarith, le_of_lt ht⟩)
    simp [metropolisAccepts, fsub, fneg, fdiv, fexp, flt, hd0, htne, hq]
    linarith

/-- Witness for the amended C2 at `current_score = 1`, `new_score = 0`,
draw `1/2`, temperatures `0` and `-1`. -/
theorem C2_amended_witness :
    (0 : ℚ) ≤ 1 - 0 ∧ (0 : ℚ) ≤ 1 / 2 ∧ (1 / 2 : ℚ) < 1 ∧ (-1 : ℚ) < 0 ∧
    metropolisAccepts (F64.fin 1) (F64.fin 0) (F64.fin 0) (1 / 2) = false ∧
    metropolisAccepts (F64.fin 1) (F64.fin 0) (F64.fin (-1)) (1 / 2) = true := by
  have h := C2_zero_temp_rejects_negative_temp_accepts 1 0 (1 / 2)
    (by norm_num) (by norm_num) (by norm_num)
  exact ⟨by norm_num, by norm_num, by norm_num, by norm_num, h.1, h.2 (-1) (by norm_num)⟩

/-- Transitivity of the IEEE strict order on non-NaN values. -/
theorem flt_trans (a b c : F64) (h1 : flt a b = true) (h2 : flt b c = true) :
    flt a c = true := by
  cases a <;> cases b <;> cases c <;> simp_all [flt]
  linarith

/-- The loop state of `monte_carlo_experiment` after a given number of
replications: retained result and current high score. -/
def mcLoop (scores : Nat → F64) (N : Nat) : Option Nat × F64 :=
  (List.range N).foldl
    (fun acc i => if fgt (scores i) acc.2 then (some i, scores i) else acc)
    ((none : Option Nat), F64.fin f64min)

theorem monte_carlo_eq_mcLoop (scores : Nat → F64) (N : Nat) :
    monte_carlo_experiment scores N = (mcLoop scores N).1 := rfl

theorem mcLoop_succ (scores : Nat → F64) (n : Nat) :
    mcLoop scores (n + 1) =
      (if fgt (scores n) (mcLoop scores n).2 then (some n, scores n) else mcLoop scores n) := by
  rw [mcLoop, List.range_succ, List.foldl_append]
  rfl

/-- Invariants of the Monte Carlo loop: while no replication was retained the
high score is still the `f64::MIN` sentinel; a result is present exactly when
some replication scored strictly above the sentinel; and the high score never
goes below the sentinel. -/
theorem mcLoop_spec (scores : Nat → F64) (N : Nat) :
    ((mcLoop scores N).1 = none → (mcLoop scores N).2 = F64.fin f64min) ∧
    ((mcLoop scores N).1.isSome = true ↔
      ∃ i, i < N ∧ fgt (scores i) (F64.fin f64min) = true) ∧
    ((mcLoop scores N).2 = F64.fin f64min ∨ flt (F64.fin f64min) (mcLoop scores N).2 = true) := by
  induction N with
  | zero => simp [mcLoop]
  | succ n ih =>
    obtain ⟨ihnone, ihiff, ihlo⟩ := ih
    rw [mcLoop_succ]
    by_cases hacc : fgt (scores n) (mcLoop scores n).2 = true
    · have hmin : flt (F64.fin f64min) (scores n) = true := by
        rcases ihlo with h | h
        · rw [h] at hacc; exact hacc
        · exact flt_trans _ _ _ h hacc
      simp only [hacc, if_true]
      refine ⟨by simp, ?_, Or.inr hmin⟩
      simp only [Option.isSome_some, true_iff]
      exact ⟨n, Nat.lt_succ_self n, hmin⟩
    · rw [if_neg hacc]
      refine ⟨ihnone, ?_, ihlo⟩
      constructor
      · intro hs
        obtain ⟨i, hi, hgt⟩ := ihiff.mp hs
        exact ⟨i, Nat.lt_succ_of_lt hi, hgt⟩
      · rintro ⟨i, hi, hgt⟩
        rcases Nat.lt_succ_iff_lt_or_eq.mp hi with h | h
        · exact ihiff.mpr ⟨i, h, hgt⟩
        · subst h
          by_contra hns
          have h0 : (mcLoop scores i).1 = none := by
            cases hq : (mcLoop scores i).1 with
            | none => rfl
            | some v => rw [hq] at hns; simp at hns
          have := ihnone h0
          rw [this] at hacc
          exact hacc hgt

/-- C3 (amended): `simulated_annealing_experiment` always returns a present
result, even for a replication limit of 0 (it ends in `Some(best_params)`
unconditionally); `monte_carlo_experiment` returns a present result exactly
when some replication scored strictly above the `f64::MIN` sentinel — in
particular the result is absent whenever the limit is 0, but also for any
positive limit whose every score is `f64::MIN`, below it, or NaN. -/
theorem C3_amended_return_shapes :
    (∀ (P : Type) (initial : P) (perturb : P → P) (score_fn : P → F64)
        (flux : Nat → F64) (us : Nat → ℚ) (N : Nat),
        (simulated_annealing_experiment initial perturb score_fn flux us N).isSome = true) ∧
    (∀ (scores : Nat → F64) (N : Nat),
        (monte_carlo_experiment scores N).isSome = true ↔
          ∃ i, i < N ∧ fgt (scores i) (F64.fin f64min) = true) := by
  constructor
  · intro P initial perturb score_fn flux us N
    rfl
  · intro scores N
    rw [monte_carlo_eq_mcLoop]
    exact (mcLoop_spec scores N).2.1

theorem hmGet_buildIndexMapFrom_none {A : Type} (agents : List (Agent A)) (k : Nat)
    (id : String) (h : id ∉ agents.map (fun a => a.id)) :
    hmGet (buildIndexMapFrom k agents) id = none := by
  induction agents generalizing k with
  | nil => rfl
  | cons ag rest ih =>
    simp only [List.map_cons, List.mem_cons, not_or] at h
    obtain ⟨h1, h2⟩ := h
    simp only [buildIndexMapFrom, hmGet, ih (k + 1) h2]
    have : (ag.id == id) = false := by
      simp only [beq_eq_false_iff_ne, ne_eq]
      exact fun hc => h1 hc.symm
    simp [this]

theorem hmGet_buildIndexMapFrom {A : Type} (agents : List (Agent A)) (k i : Nat)
    (ag : Agent A) (hget : agents.get? i = some ag)
    (hnd : (agents.map (fun a => a.id)).Nodup) :
    hmGet (buildIndexMapFrom k agents) ag.id = some (k + i) := by
  induction agents generalizing k i with
  | nil => simp at hget
  | cons a0 rest ih =>
    simp only [List.map_cons, List.nodup_cons] at hnd
    obtain ⟨hnm, hnd2⟩ := hnd
    cases i with
    | zero =>
      simp only [List.get?] at hget
      injection hget with hget
      subst hget
      simp only [buildIndexMapFrom, hmGet]
      rw [hmGet_buildIndexMapFrom_none rest (k + 1) a0.id hnm]
      simp
    | succ n =>
      simp only [List.get?] at hget
      have h := ih (k + 1) n hget hnd2
      simp only [buildIndexMapFrom, hmGet, h]
      congr 1
      omega

def WF {A : Type} (s : Simulation A) : Prop :=
  s.agent_states.length = s.agents.length ∧
  (s.agents.map (fun a => a.id)).Nodup ∧
  (∀ j ag, s.agents.get? j = some ag → hmGet s.agent_id_index_map ag.id = some j)

theorem WF_new {A : Type} (p : SimulationParameters A)
    (hnd : (p.agent_initializers.map (fun ini => ini.agent.id)).Nodup) :
    WF (Simulation.new p) := by
  have hids : (p.agent_initializers.map (fun ini => ini.agent)).map (fun a => a.id) =
      p.agent_initializers.map (fun ini => ini.agent.id) := by
    rw [List.map_map]; rfl
  refine ⟨by simp [Simulation.new], ?_, ?_⟩
  · show ((p.agent_initializers.map (fun ini => ini.agent)).map (fun a => a.id)).Nodup
    rw [hids]; exact hnd
  · intro j ag hget
    show hmGet (buildIndexMapFrom 0 (p.agent_initializers.map (fun ini => ini.agent))) ag.id = some j
    have hget2 : (p.agent_initializers.map (fun ini => ini.agent)).get? j = some ag := hget
    have := hmGet_buildIndexMapFrom (p.agent_initializers.map (fun ini => ini.agent)) 0 j ag
      hget2 (by rw [hids]; exact hnd)
    simpa using this

def localAt {A : Type} (s : Simulation A) (j : Nat) :
    Option (Agent A × AgentState × List AgentCommandType × Bool) :=
  match s.agents.get? j, s.agent_states.get? j with
  | some ag, some st => some (dispatchLocal s.time ag st)
  | _, _ => none

def cmdsAt {A : Type} (s : Simulation A) (j : Nat) : List AgentCommand :=
  match localAt s j with
  | some r => r.2.2.1.map (fun ty => { ty := ty, agent_handle := j })
  | none => []

def evAt {A : Type} (s : Simulation A) (j : Nat) : List (Nat × Nat) :=
  match localAt s j with
  | some r => if r.2.2.2 then [(s.time, j)] else []
  | none => []

structure DispatchAgrees {A : Type} (s0 : Simulation A) (l : List Nat)
    (s : Simulation A) : Prop where
  time_eq : s.time = s0.time
  map_eq : s.agent_id_index_map = s0.agent_id_index_map
  mode_eq : s.mode = s0.mode
  halt_eq : s.halt_check = s0.halt_check
  qdm_eq : s.enable_queue_depth_metric = s0.enable_queue_depth_metric
  acm_eq : s.enable_agent_asleep_cycles_metric = s0.enable_agent_asleep_cycles_metric
  alen_eq : s.agents.length = s0.agents.length
  slen_eq : s.agent_states.length = s0.agent_states.length
  agents_eq : ∀ j ∈ l, s.agents.get? j = s0.agents.get? j
  states_eq : ∀ j ∈ l, s.agent_states.get? j = s0.agent_states.get? j

structure DispatchOut {A : Type} (s0 : Simulation A) (l : List Nat)
    (s : Simulation A) (b : List AgentCommand) (e : List (Nat × Nat))
    (r : Simulation A × List AgentCommand × List (Nat × Nat)) : Prop where
  scalars : DispatchAgrees s0 [] r.1
  untouched_agents : ∀ j, j ∉ l → r.1.agents.get? j = s.agents.get? j
  untouched_states : ∀ j, j ∉ l → r.1.agent_states.get? j = s.agent_states.get? j
  agents_at : ∀ j ∈ l, r.1.agents.get? j = (localAt s0 j).map (fun x => x.1)
  states_at : ∀ j ∈ l, r.1.agent_states.get? j = (localAt s0 j).map (fun x => x.2.1)
  buf_eq : r.2.1 = b ++ l.flatMap (cmdsAt s0)
  ev_eq : r.2.2 = e ++ l.flatMap (evAt s0)

def mdAfter {A : Type} (s : Simulation A) (ag : Agent A) (st0 : AgentState) :
    List (String × AgentMetadata) :=
  let md1 :=
    if s.enable_queue_depth_metric then
      hmModify s.agent_metadata_hash_table ag.id
        (fun md => { md with
          queue_depth_metrics := md.queue_depth_metrics ++ [st0.queue.tail.length] })
    else s.agent_metadata_hash_table
  match st0.mode with
  | AgentMode.AsleepUntil _ =>
    if s.enable_agent_asleep_cycles_metric then
      hmModify md1 ag.id
        (fun md => { md with asleep_cycle_count := md.asleep_cycle_count + 1 })
    else md1
  | _ => md1

theorem dispatchOne_skip {A : Type} (s : Simulation A) (b : List AgentCommand)
    (e : List (Nat × Nat)) (i : Nat) (h : s.agents.get? i = none) :
    dispatchOne (s, b, e) i = (s, b, e) := by
  have h2 : s.agents[i]? = none := by rw [← List.get?_eq_getElem?]; exact h
  simp [dispatchOne, h2]

theorem dispatchOne_step {A : Type} (s : Simulation A) (b : List AgentCommand)
    (e : List (Nat × Nat)) (i : Nat) (ag : Agent A) (st : AgentState)
    (hA : s.agents.get? i = some ag)
    (hM : hmGet s.agent_id_index_map ag.id = some i)
    (hS : s.agent_states.get? i = some st) :
    dispatchOne (s, b, e) i =
      ({ s with
          agents := listUpdate s.agents i (fun _ => (dispatchLocal s.time ag st).1)
          agent_states := listUpdate s.agent_states i (fun _ => (dispatchLocal s.time ag st).2.1)
          agent_metadata_hash_table := mdAfter s ag st },
       b ++ (dispatchLocal s.time ag st).2.2.1.map (fun ty => { ty := ty, agent_handle := i }),
       e ++ (if (dispatchLocal s.time ag st).2.2.2 then [(s.time, i)] else [])) := by
  have hA2 : s.agents[i]? = some ag := by rw [← List.get?_eq_getElem?]; exact hA
  have hS2 : s.agent_states[i]? = some st := by rw [← List.get?_eq_getElem?]; exact hS
  simp [dispatchOne, mdAfter, hA2, hM, hS2]

theorem dispatch_fold_spec {A : Type} (s0 : Simulation A) (hwf : WF s0) :
    ∀ (l : List Nat), l.Nodup →
    ∀ (s : Simulation A) (b : List AgentCommand) (e : List (Nat × Nat)),
    DispatchAgrees s0 l s →
    DispatchOut s0 l s b e (l.foldl dispatchOne (s, b, e)) := by
  intro l
  induction l with
  | nil =>
    intro _ s b e hin
    refine ⟨⟨hin.time_eq, hin.map_eq, hin.mode_eq, hin.halt_eq, hin.qdm_eq, hin.acm_eq,
      hin.alen_eq, hin.slen_eq, by simp, by simp⟩, ?_, ?_, ?_, ?_, ?_, ?_⟩
    · intro k _; rfl
    · intro k _; rfl
    · intro k hk; simp at hk
    · intro k hk; simp at hk
    · simp
    · simp
  | cons j rest ih =>
    intro hnd s b e hin
    obtain ⟨hjr, hndr⟩ := List.nodup_cons.mp hnd
    have hmemj : j ∈ j :: rest := List.mem_cons_self j rest
    rw [List.foldl_cons]
    cases hA : s0.agents.get? j with
    | none =>
      have hsA : s.agents.get? j = none := by rw [hin.agents_eq j hmemj]; exact hA
      rw [dispatchOne_skip s b e j hsA]
      have hin2 : DispatchAgrees s0 rest s :=
        ⟨hin.time_eq, hin.map_eq, hin.mode_eq, hin.halt_eq, hin.qdm_eq, hin.acm_eq,
         hin.alen_eq, hin.slen_eq,
         fun k hk => hin.agents_eq k (List.mem_cons_of_mem j hk),
         fun k hk => hin.states_eq k (List.mem_cons_of_mem j hk)⟩
      have out := ih hndr s b e hin2
      have hlocal : localAt s0 j = none := by
        have hA2 : s0.agents[j]? = none := by rw [← List.get?_eq_getElem?]; exact hA
        simp [localAt, hA2]
      have hs0S : s0.agent_states.get? j = none := by
        rw [List.get?_eq_none] at hA ⊢
        rw [hwf.1]; exact hA
      have hsS : s.agent_states.get? j = none := by rw [hin.states_eq j hmemj]; exact hs0S
      refine ⟨out.scalars, ?_, ?_, ?_, ?_, ?_, ?_⟩
      · intro k hk
        exact out.untouched_agents k (fun hm => hk (List.mem_cons_of_mem j hm))
      · intro k hk
        exact out.untouched_states k (fun hm => hk (List.mem_cons_of_mem j hm))
      · intro k hk
        rcases List.mem_cons.mp hk with h | h
        · subst h
          rw [out.untouched_agents k hjr, hsA, hlocal]
          rfl
        · exact out.agents_at k h
      · intro k hk
        rcases List.mem_cons.mp hk with h | h
        · subst h
          rw [out.untouched_states k hjr, hsS, hlocal]
          rfl
        · exact out.states_at k h
      · rw [out.buf_eq]
        simp [List.flatMap_cons, cmdsAt, hlocal]
      · rw [out.ev_eq]
        simp [List.flatMap_cons, evAt, hlocal]
    | some ag =>
      have hj : j < s0.agents.length := (List.get?_eq_some.mp hA).1
      have hjs : j < s0.agent_states.length := by rw [hwf.1]; exact hj
      obtain ⟨st, hS⟩ : ∃ st, s0.agent_states.get? j = some st := by
        rcases hq : s0.agent_states.get? j with _ | st
        · rw [List.get?_eq_none] at hq; omega
        · exact ⟨st, rfl⟩
      have hsA : s.agents.get? j = some ag := by rw [hin.agents_eq j hmemj]; exact hA
      have hsS : s.agent_states.get? j = some st := by rw [hin.states_eq j hmemj]; exact hS
      have hsM : hmGet s.agent_id_index_map ag.id = some j := by
        rw [hin.map_eq]; exact hwf.2.2 j ag hA
      rw [dispatchOne_step s b e j ag st hsA hsM hsS]
      have htime := hin.time_eq
      have hlocal : localAt s0 j = some (dispatchLocal s.time ag st) := by
        have hA2 : s0.agents[j]? = some ag := by rw [← List.get?_eq_getElem?]; exact hA
        have hS2 : s0.agent_states[j]? = some st := by rw [← List.get?_eq_getElem?]; exact hS
        rw [htime]
        simp [localAt, hA2, hS2]
      have hin2 : DispatchAgrees s0 rest
          { s with
            agents := listUpdate s.agents j (fun _ => (dispatchLocal s.time ag st).1)
            agent_states := listUpdate s.agent_states j (fun _ => (dispatchLocal s.time ag st).2.1)
            agent_metadata_hash_table := mdAfter s ag st } := by
        refine ⟨hin.time_eq, hin.map_eq, hin.mode_eq, hin.halt_eq, hin.qdm_eq, hin.acm_eq, ?_, ?_, ?_, ?_⟩
        · show (listUpdate s.agents j _).length = s0.agents.length
          rw [listUpdate_length]; exact hin.alen_eq
        · show (listUpdate s.agent_states j _).length = s0.agent_states.length
          rw [listUpdate_length]; exact hin.slen_eq
        · intro k hk
          have hkj : k ≠ j := fun hc => hjr (hc ▸ hk)
          show (listUpdate s.agents j _).get? k = s0.agents.get? k
          rw [get?_listUpdate_ne s.agents j k _ hkj]
          exact hin.agents_eq k (List.mem_cons_of_mem j hk)
        · intro k hk
          have hkj : k ≠ j := fun hc => hjr (hc ▸ hk)
          show (listUpdate s.agent_states j _).get? k = s0.agent_states.get? k
          rw [get?_listUpdate_ne s.agent_states j k _ hkj]
          exact hin.states_eq k (List.mem_cons_of_mem j hk)
      have out := ih hndr
        { s with
          agents := listUpdate s.agents j (fun _ => (dispatchLocal s.time ag st).1)
          agent_states := listUpdate s.agent_states j (fun _ => (dispatchLocal s.time ag st).2.1)
          agent_metadata_hash_table := mdAfter s ag st }
        (b ++ (dispatchLocal s.time ag st).2.2.1.map (fun ty => { ty := ty, agent_handle := j }))
        (e ++ (if (dispatchLocal s.time ag st).2.2.2 then [(s.time, j)] else []))
        hin2
      refine ⟨out.scalars, ?_, ?_, ?_, ?_, ?_, ?_⟩
      · intro k hk
        have hkr : k ∉ rest := fun hm => hk (List.mem_cons_of_mem j hm)
        have hkj : k ≠ j := fun hc => hk (hc ▸ hmemj)
        rw [out.untouched_agents k hkr]
        show (listUpdate s.agents j _).get? k = s.agents.get? k
        exact get?_listUpdate_ne s.agents j k _ hkj
      · intro k hk
        have hkr : k ∉ rest := fun hm => hk (List.mem_cons_of_mem j hm)
        have hkj : k ≠ j := fun hc => hk (hc ▸ hmemj)
        rw [out.untouched_states k hkr]
        show (listUpdate s.agent_states j _).get? k = s.agent_states.get? k
        exact get?_listUpdate_ne s.agent_states j k _ hkj
      · intro k hk
        rcases List.mem_cons.mp hk with h | h
        · subst h
          rw [out.untouched_agents k hjr]
          show (listUpdate s.agents k _).get? k = (localAt s0 k).map (fun x => x.1)
          rw [get?_listUpdate_eq, hsA, hlocal]
          rfl
        · exact out.agents_at k h
      · intro k hk
        rcases List.mem_cons.mp hk with h | h
        · subst h
          rw [out.untouched_states k hjr]
          show (listUpdate s.agent_states k _).get? k = (localAt s0 k).map (fun x => x.2.1)
          rw [get?_listUpdate_eq, hsS, hlocal]
          rfl
        · exact out.states_at k h
      · rw [out.buf_eq]
        simp [List.flatMap_cons, cmdsAt, hlocal]
      · rw [out.ev_eq]
        simp [List.flatMap_cons, evAt, hlocal, htime]

theorem dispatchAgents_spec {A : Type} (s : Simulation A) (hwf : WF s) :
    DispatchOut s (List.range s.agents.length) s [] [] (dispatchAgents s) := by
  apply dispatch_fold_spec s hwf _ (List.nodup_range _)
  exact ⟨rfl, rfl, rfl, rfl, rfl, rfl, rfl, rfl, fun _ _ => rfl, fun _ _ => rfl⟩

theorem dispatchAgents_states_at {A : Type} (s : Simulation A) (hwf : WF s) (j : Nat)
    (hj : j < s.agents.length) :
    (dispatchAgents s).1.agent_states.get? j = (localAt s j).map (fun x => x.2.1) :=
  (dispatchAgents_spec s hwf).states_at j (List.mem_range.mpr hj)

theorem dispatchAgents_buffer {A : Type} (s : Simulation A) (hwf : WF s) :
    (dispatchAgents s).2.1 = (List.range s.agents.length).flatMap (cmdsAt s) := by
  have h := (dispatchAgents_spec s hwf).buf_eq
  simpa using h

theorem dispatchAgents_events {A : Type} (s : Simulation A) (hwf : WF s) :
    (dispatchAgents s).2.2 = (List.range s.agents.length).flatMap (evAt s) := by
  have h := (dispatchAgents_spec s hwf).ev_eq
  simpa using h

theorem get?Map_listUpdate {α β : Type} (l : List α) (i : Nat) (f : α → α) (g : α → β)
    (hf : ∀ x, g (f x) = g x) (j : Nat) :
    ((listUpdate l i f).get? j).map g = (l.get? j).map g := by
  by_cases h : j = i
  · subst h
    rw [get?_listUpdate_eq]
    cases l.get? j <;> simp [hf]
  · rw [get?_listUpdate_ne _ _ _ _ h]

theorem poc_scalars {A : Type} (s : Simulation A) (c : AgentCommand) :
    (process_one_command s c).time = s.time ∧
    (process_one_command s c).agents = s.agents ∧
    (process_one_command s c).agent_id_index_map = s.agent_id_index_map ∧
    (process_one_command s c).halt_check = s.halt_check ∧
    (process_one_command s c).enable_queue_depth_metric = s.enable_queue_depth_metric ∧
    (process_one_command s c).enable_agent_asleep_cycles_metric = s.enable_agent_asleep_cycles_metric ∧
    (process_one_command s c).agent_metadata_hash_table = s.agent_metadata_hash_table ∧
    (process_one_command s c).agent_states.length = s.agent_states.length := by
  rcases c with ⟨ty, h⟩
  cases ty with
  | SendMessage m =>
    cases hm : hmGet s.agent_id_index_map m.destination <;>
      simp [process_one_command, hm, listUpdate_length]
  | Sleep d => simp [process_one_command, listUpdate_length]
  | HaltSimulation r => simp [process_one_command]

/-- The messages a single drained command appends to the queue of slot `j`
(the destination lookup happens at drain time against the index map `m`). -/
def sendDeliversTo (m : List (String × Nat)) (j : Nat) (c : AgentCommand) : List Message :=
  match c.ty with
  | AgentCommandType.SendMessage msg =>
    match hmGet m msg.destination with
    | some r => if r = j then [msg] else []
    | none => []
  | _ => []

/-- The messages a single drained command appends to the produced log of the
issuing handle `j`. -/
def sentByOne (j : Nat) (c : AgentCommand) : List Message :=
  match c.ty with
  | AgentCommandType.SendMessage msg => if c.agent_handle = j then [msg] else []
  | _ => []

/-- All messages a drained command list appends to the queue of slot `j`, in
drain order. -/
def deliveredTo (m : List (String × Nat)) (j : Nat) (cmds : List AgentCommand) : List Message :=
  cmds.flatMap (sendDeliversTo m j)

/-- All messages a drained command list appends to the produced log of `j`,
in drain order. -/
def sentBy (j : Nat) (cmds : List AgentCommand) : List Message :=
  cmds.flatMap (sentByOne j)

theorem poc_queue {A : Type} (s : Simulation A) (c : AgentCommand) (j : Nat) :
    ((process_one_command s c).agent_states.get? j).map (fun st => st.queue) =
      (s.agent_states.get? j).map
        (fun st => st.queue ++ sendDeliversTo s.agent_id_index_map j c) := by
  rcases c with ⟨ty, h⟩
  cases ty with
  | SendMessage msg =>
    cases hm : hmGet s.agent_id_index_map msg.destination with
    | none =>
      simp only [process_one_command, hm, sendDeliversTo]
      rw [get?Map_listUpdate _ _ _ (fun (st : AgentState) => st.queue) (by intro x; rfl) j]
      cases s.agent_states.get? j <;> simp
    | some r =>
      simp only [process_one_command, hm, sendDeliversTo]
      rw [get?Map_listUpdate _ _ _ (fun (st : AgentState) => st.queue) (by intro x; rfl) j]
      by_cases hr : r = j
      · rw [if_pos hr, hr, get?_listUpdate_eq]
        cases s.agent_states.get? j <;> simp [Function.comp]
      · rw [if_neg hr, get?_listUpdate_ne _ _ _ _ (fun hc => hr hc.symm)]
        cases s.agent_states.get? j <;> simp
  | Sleep d =>
    simp only [process_one_command, sendDeliversTo]
    rw [get?Map_listUpdate _ _ _ (fun (st : AgentState) => st.queue) (by intro x; rfl) j]
    cases s.agent_states.get? j <;> simp
  | HaltSimulation r =>
    simp only [process_one_command, sendDeliversTo]
    cases s.agent_states.get? j <;> simp

theorem deliveredTo_cons (m : List (String × Nat)) (j : Nat) (c : AgentCommand)
    (cmds : List AgentCommand) :
    deliveredTo m j (c :: cmds) = sendDeliversTo m j c ++ deliveredTo m j cmds := by
  simp [deliveredTo]

theorem drain_queue {A : Type} :
    ∀ (cmds : List AgentCommand) (s : Simulation A) (j : Nat),
    ((cmds.foldl process_one_command s).agent_states.get? j).map (fun st => st.queue) =
      (s.agent_states.get? j).map
        (fun st => st.queue ++ deliveredTo s.agent_id_index_map j cmds) := by
  intro cmds
  induction cmds with
  | nil =>
    intro s j
    rw [List.foldl_nil]
    cases hs : s.agent_states.get? j with
    | none => rfl
    | some st => simp [deliveredTo]
  | cons c cmds ih =>
    intro s j
    rw [List.foldl_cons, ih (process_one_command s c) j, (poc_scalars s c).2.2.1]
    have hq := poc_queue s c j
    cases hs : s.agent_states.get? j with
    | none =>
      rw [hs] at hq
      cases hp : (process_one_command s c).agent_states.get? j with
      | none => rfl
      | some st2 => rw [hp] at hq; exact absurd hq (by simp)
    | some st =>
      rw [hs] at hq
      cases hp : (process_one_command s c).agent_states.get? j with
      | none => rw [hp] at hq; exact absurd hq (by simp)
      | some st2 =>
        rw [hp] at hq
        simp only [Option.map_some'] at hq ⊢
        injection hq with hq
        congr 1
        rw [hq, deliveredTo_cons, List.append_assoc]

theorem drain_scalars {A : Type} :
    ∀ (cmds : List AgentCommand) (s : Simulation A),
    (cmds.foldl process_one_command s).time = s.time ∧
    (cmds.foldl process_one_command s).agents = s.agents ∧
    (cmds.foldl process_one_command s).agent_id_index_map = s.agent_id_index_map ∧
    (cmds.foldl process_one_command s).halt_check = s.halt_check ∧
    (cmds.foldl process_one_command s).enable_queue_depth_metric = s.enable_queue_depth_metric ∧
    (cmds.foldl process_one_command s).enable_agent_asleep_cycles_metric =
      s.enable_agent_asleep_cycles_metric ∧
    (cmds.foldl process_one_command s).agent_metadata_hash_table = s.agent_metadata_hash_table ∧
    (cmds.foldl process_one_command s).agent_states.length = s.agent_states.length := by
  intro cmds
  induction cmds with
  | nil => intro s; exact ⟨rfl, rfl, rfl, rfl, rfl, rfl, rfl, rfl⟩
  | cons c cmds ih =>
    intro s
    rw [List.foldl_cons]
    have h1 := poc_scalars s c
    have h2 := ih (process_one_command s c)
    exact ⟨h2.1.trans h1.1, h2.2.1.trans h1.2.1, h2.2.2.1.trans h1.2.2.1,
      h2.2.2.2.1.trans h1.2.2.2.1, h2.2.2.2.2.1.trans h1.2.2.2.2.1,
      h2.2.2.2.2.2.1.trans h1.2.2.2.2.2.1, h2.2.2.2.2.2.2.1.trans h1.2.2.2.2.2.2.1,
      h2.2.2.2.2.2.2.2.trans h1.2.2.2.2.2.2.2⟩

theorem poc_consumed {A : Type} (s : Simulation A) (c : AgentCommand) (j : Nat) :
    ((process_one_command s c).agent_states.get? j).map (fun st => st.consumed) =
      (s.agent_states.get? j).map (fun st => st.consumed) := by
  rcases c with ⟨ty, h⟩
  cases ty with
  | SendMessage msg =>
    cases hm : hmGet s.agent_id_index_map msg.destination with
    | none =>
      simp only [process_one_command, hm]
      rw [get?Map_listUpdate _ _ _ (fun (st : AgentState) => st.consumed) (by intro x; rfl) j]
    | some r =>
      simp only [process_one_command, hm]
      rw [get?Map_listUpdate _ _ _ (fun (st : AgentState) => st.consumed) (by intro x; rfl) j,
        get?Map_listUpdate _ _ _ (fun (st : AgentState) => st.consumed) (by intro x; rfl) j]
  | Sleep d =>
    simp only [process_one_command]
    rw [get?Map_listUpdate _ _ _ (fun (st : AgentState) => st.consumed) (by intro x; rfl) j]
  | HaltSimulation r => rfl

theorem drain_consumed {A : Type} :
    ∀ (cmds : List AgentCommand) (s : Simulation A) (j : Nat),
    ((cmds.foldl process_one_command s).agent_states.get? j).map (fun st => st.consumed) =
      (s.agent_states.get? j).map (fun st => st.consumed) := by
  intro cmds
  induction cmds with
  | nil => intro s j; rfl
  | cons c cmds ih =>
    intro s j
    rw [List.foldl_cons, ih (process_one_command s c) j, poc_consumed]

theorem optMap_congr_of_proj {α β γ : Type} (x y : Option α) (g : α → β) (k : β → γ)
    (h : x.map g = y.map g) :
    x.map (fun a => k (g a)) = y.map (fun a => k (g a)) := by
  cases x <;> cases y <;> simp_all

theorem poc_produced {A : Type} (s : Simulation A) (c : AgentCommand) (j : Nat) :
    ((process_one_command s c).agent_states.get? j).map (fun st => st.produced) =
      (s.agent_states.get? j).map (fun st => st.produced ++ sentByOne j c) := by
  rcases c with ⟨ty, h⟩
  cases ty with
  | SendMessage msg =>
    have hone : sentByOne j { ty := AgentCommandType.SendMessage msg, agent_handle := h } =
        (if h = j then [msg] else []) := rfl
    rw [hone]
    cases hm : hmGet s.agent_id_index_map msg.destination with
    | none =>
      simp only [process_one_command, hm]
      by_cases hh : h = j
      · rw [if_pos hh, hh, get?_listUpdate_eq]
        cases s.agent_states.get? j <;> simp [Function.comp]
      · rw [if_neg hh, get?_listUpdate_ne _ _ _ _ (fun hc => hh hc.symm)]
        cases s.agent_states.get? j <;> simp
    | some r =>
      simp only [process_one_command, hm]
      by_cases hh : h = j
      · rw [if_pos hh, hh, get?_listUpdate_eq, Option.map_map]
        exact optMap_congr_of_proj _ _ (fun (st : AgentState) => st.produced)
          (fun p => p ++ [msg])
          (get?Map_listUpdate _ _ _ (fun (st : AgentState) => st.produced) (by intro x; rfl) j)
      · rw [if_neg hh, get?_listUpdate_ne _ _ _ _ (fun hc => hh hc.symm),
          get?Map_listUpdate _ _ _ (fun (st : AgentState) => st.produced) (by intro x; rfl) j]
        cases s.agent_states.get? j <;> simp
  | Sleep d =>
    simp only [process_one_command, sentByOne]
    rw [get?Map_listUpdate _ _ _ (fun (st : AgentState) => st.produced) (by intro x; rfl) j]
    cases s.agent_states.get? j <;> simp
  | HaltSimulation r =>
    simp only [process_one_command, sentByOne]
    cases s.agent_states.get? j <;> simp

theorem sentBy_cons (j : Nat) (c : AgentCommand) (cmds : List AgentCommand) :
    sentBy j (c :: cmds) = sentByOne j c ++ sentBy j cmds := by
  simp [sentBy]

theorem drain_produced {A : Type} :
    ∀ (cmds : List AgentCommand) (s : Simulation A) (j : Nat),
    ((cmds.foldl process_one_command s).agent_states.get? j).map (fun st => st.produced) =
      (s.agent_states.get? j).map (fun st => st.produced ++ sentBy j cmds) := by
  intro cmds
  induction cmds with
  | nil =>
    intro s j
    rw [List.foldl_nil]
    cases hs : s.agent_states.get? j with
    | none => rfl
    | some st => simp [sentBy]
  | cons c cmds ih =>
    intro s j
    rw [List.foldl_cons, ih (process_one_command s c) j]
    have hq := poc_produced s c j
    cases hs : s.agent_states.get? j with
    | none =>
      rw [hs] at hq
      cases hp : (process_one_command s c).agent_states.get? j with
      | none => rfl
      | some st2 => rw [hp] at hq; exact absurd hq (by simp)
    | some st =>
      rw [hs] at hq
      cases hp : (process_one_command s c).agent_states.get? j with
      | none => rw [hp] at hq; exact absurd hq (by simp)
      | some st2 =>
        rw [hp] at hq
        simp only [Option.map_some'] at hq ⊢
        injection hq with hq
        congr 1
        rw [hq, sentBy_cons, List.append_assoc]

theorem poc_mode {A : Type} (s : Simulation A) (c : AgentCommand) (j : Nat)
    (hns : (∃ d, c.ty = AgentCommandType.Sleep d) → c.agent_handle ≠ j) :
    ((process_one_command s c).agent_states.get? j).map (fun st => st.mode) =
      (s.agent_states.get? j).map (fun st => st.mode) := by
  rcases c with ⟨ty, h⟩
  cases ty with
  | SendMessage msg =>
    cases hm : hmGet s.agent_id_index_map msg.destination with
    | none =>
      simp only [process_one_command, hm]
      rw [get?Map_listUpdate _ _ _ (fun (st : AgentState) => st.mode) (by intro x; rfl) j]
    | some r =>
      simp only [process_one_command, hm]
      rw [get?Map_listUpdate _ _ _ (fun (st : AgentState) => st.mode) (by intro x; rfl) j,
        get?Map_listUpdate _ _ _ (fun (st : AgentState) => st.mode) (by intro x; rfl) j]
  | Sleep d =>
    have hne : h ≠ j := hns ⟨d, rfl⟩
    simp only [process_one_command]
    rw [get?_listUpdate_ne _ _ _ _ (fun hc => hne hc.symm)]
  | HaltSimulation r => rfl

theorem drain_mode {A : Type} :
    ∀ (cmds : List AgentCommand) (s : Simulation A) (j : Nat),
    (∀ c ∈ cmds, (∃ d, c.ty = AgentCommandType.Sleep d) → c.agent_handle ≠ j) →
    ((cmds.foldl process_one_command s).agent_states.get? j).map (fun st => st.mode) =
      (s.agent_states.get? j).map (fun st => st.mode) := by
  intro cmds
  induction cmds with
  | nil => intro s j _; rfl
  | cons c cmds ih =>
    intro s j hns
    rw [List.foldl_cons,
      ih (process_one_command s c) j (fun d hd => hns d (List.mem_cons_of_mem c hd)),
      poc_mode s c j (hns c (List.mem_cons_self c cmds))]

/-- The per-state function applied by the wake check. -/
def wakeupState (time : Nat) (st : AgentState) : AgentState :=
  match st.mode with
  | AgentMode.AsleepUntil wakeup_at =>
    if wakeup_at ≤ time then { st with mode := st.wake_mode } else st
  | _ => st

theorem wakeup_states {A : Type} (s : Simulation A) :
    (wakeup_agents_scheduled_to_wakeup_now s).agent_states =
      s.agent_states.map (wakeupState s.time) := rfl

theorem wakeup_states_at {A : Type} (s : Simulation A) (j : Nat) :
    (wakeup_agents_scheduled_to_wakeup_now s).agent_states.get? j =
      (s.agent_states.get? j).map (wakeupState s.time) := by
  rw [wakeup_states]
  simp [List.get?_eq_getElem?]

theorem dispatchLocal_id {A : Type} (time : Nat) (ag : Agent A) (st : AgentState) :
    (dispatchLocal time ag st).1.id = ag.id := by
  cases hm : st.mode with
  | Proactive => simp [dispatchLocal, hm]
  | Reactive =>
    cases hq : st.queue.head? with
    | none => simp [dispatchLocal, hm, hq]
    | some msg => simp [dispatchLocal, hm, hq]
  | AsleepUntil w => simp [dispatchLocal, hm]
  | Dead => simp [dispatchLocal, hm]

theorem get?_map_ids {α β : Type} (l : List α) (f : α → β) (n : Nat) :
    (l.map f).get? n = (l.get? n).map f := by
  simp [List.get?_eq_getElem?, List.getElem?_map]

theorem WF_wakeup {A : Type} (s : Simulation A) (h : WF s) :
    WF (wakeup_agents_scheduled_to_wakeup_now s) := by
  obtain ⟨h1, h2, h3⟩ := h
  refine ⟨?_, h2, h3⟩
  show (s.agent_states.map (wakeupState s.time)).length = s.agents.length
  rw [List.length_map]
  exact h1

theorem WF_dispatchAgents {A : Type} (s : Simulation A) (hwf : WF s) :
    WF (dispatchAgents s).1 := by
  have spec := dispatchAgents_spec s hwf
  have halen := spec.scalars.alen_eq
  have hslen := spec.scalars.slen_eq
  have hmap := spec.scalars.map_eq
  have hids : ∀ j, ((dispatchAgents s).1.agents.get? j).map (fun a => a.id) =
      (s.agents.get? j).map (fun a => a.id) := by
    intro j
    by_cases hj : j < s.agents.length
    · rw [spec.agents_at j (List.mem_range.mpr hj)]
      obtain ⟨ag, hA⟩ : ∃ ag, s.agents.get? j = some ag := by
        rcases hq : s.agents.get? j with _ | ag
        · rw [List.get?_eq_none] at hq; omega
        · exact ⟨ag, rfl⟩
      obtain ⟨st, hS⟩ : ∃ st, s.agent_states.get? j = some st := by
        rcases hq : s.agent_states.get? j with _ | st
        · rw [List.get?_eq_none] at hq; rw [hwf.1] at hq; omega
        · exact ⟨st, rfl⟩
      have hA2 : s.agents[j]? = some ag := by rw [← List.get?_eq_getElem?]; exact hA
      have hS2 : s.agent_states[j]? = some st := by rw [← List.get?_eq_getElem?]; exact hS
      rw [hA]
      simp [localAt, hA2, hS2, dispatchLocal_id]
    · have hn1 : s.agents.get? j = none := List.get?_eq_none.mpr (le_of_not_lt hj)
      have hn2 : (dispatchAgents s).1.agents.get? j = none := by
        rw [List.get?_eq_none, halen]
        exact le_of_not_lt hj
      rw [hn1, hn2]
  have hidlist : (dispatchAgents s).1.agents.map (fun a => a.id) =
      s.agents.map (fun a => a.id) :=
    List.ext_get? (fun n => by rw [get?_map_ids, get?_map_ids, hids n])
  refine ⟨?_, ?_, ?_⟩
  · rw [hslen, halen, hwf.1]
  · rw [hidlist]; exact hwf.2.1
  · intro j ag hget
    rw [hmap]
    have hj : j < s.agents.length := by
      by_contra hc
      have hn : (dispatchAgents s).1.agents.get? j = none := by
        rw [List.get?_eq_none, halen]
        exact le_of_not_lt hc
      rw [hn] at hget
      exact Option.noConfusion hget
    obtain ⟨ag0, hA⟩ : ∃ ag0, s.agents.get? j = some ag0 := by
      rcases hq : s.agents.get? j with _ | ag0
      · rw [List.get?_eq_none] at hq; omega
      · exact ⟨ag0, rfl⟩
    obtain ⟨st, hS⟩ : ∃ st, s.agent_states.get? j = some st := by
      rcases hq : s.agent_states.get? j with _ | st
      · rw [List.get?_eq_none] at hq; rw [hwf.1] at hq; omega
      · exact ⟨st, rfl⟩
    have hA2 : s.agents[j]? = some ag0 := by rw [← List.get?_eq_getElem?]; exact hA
    have hS2 : s.agent_states[j]? = some st := by rw [← List.get?_eq_getElem?]; exact hS
    have hat := spec.agents_at j (List.mem_range.mpr hj)
    rw [hget] at hat
    have hag : ag = (dispatchLocal s.time ag0 st).1 := by
      simp [localAt, hA2, hS2] at hat
      exact hat
    rw [hag, dispatchLocal_id]
    exact hwf.2.2 j ag0 hA

theorem WF_drain {A : Type} (cmds : List AgentCommand) (s : Simulation A) (h : WF s) :
    WF (cmds.foldl process_one_command s) := by
  have hs := drain_scalars cmds s
  refine ⟨?_, ?_, ?_⟩
  · rw [hs.2.2.2.2.2.2.2, hs.2.1]; exact h.1
  · rw [hs.2.1]; exact h.2.1
  · intro j ag hget
    rw [hs.2.1] at hget
    rw [hs.2.2.1]
    exact h.2.2 j ag hget

theorem WF_tick {A : Type} (s : Simulation A) (h : WF s) : WF (tick s).1 := by
  have h1 := WF_wakeup s h
  have h2 := WF_dispatchAgents _ h1
  have h3 := WF_drain ((dispatchAgents (wakeup_agents_scheduled_to_wakeup_now s)).2.1).reverse _ h2
  exact ⟨h3.1, h3.2.1, h3.2.2⟩

/-- C6: for a `SendMessage` command drained from the buffer, when the
destination name resolves in the index map at drain time the message is
appended to the back of the destination queue, and in every case (resolved or
not) the message is appended to the produced log of the issuing handle.  The
two index-validity hypotheses mirror the construction invariant under which
the Rust indexing cannot panic. -/
theorem C6_send_message_delivery {A : Type} (s : Simulation A) (msg : Message) (h : Nat)
    (_hh : h < s.agent_states.length)
    (_hrid : ∀ rid, hmGet s.agent_id_index_map msg.destination = some rid →
      rid < s.agent_states.length) :
    (∀ rid, hmGet s.agent_id_index_map msg.destination = some rid →
      ((process_one_command s
          { ty := AgentCommandType.SendMessage msg, agent_handle := h }).agent_states.get?
            rid).map (fun st => st.queue) =
        (s.agent_states.get? rid).map (fun st => st.queue ++ [msg])) ∧
    ((process_one_command s
        { ty := AgentCommandType.SendMessage msg, agent_handle := h }).agent_states.get?
          h).map (fun st => st.produced) =
      (s.agent_states.get? h).map (fun st => st.produced ++ [msg]) := by
  constructor
  · intro rid hr
    have hq := poc_queue s { ty := AgentCommandType.SendMessage msg, agent_handle := h } rid
    have hsend : sendDeliversTo s.agent_id_index_map rid
        { ty := AgentCommandType.SendMessage msg, agent_handle := h } = [msg] := by
      simp [sendDeliversTo, hr]
    rw [hq, hsend]
  · have hp := poc_produced s { ty := AgentCommandType.SendMessage msg, agent_handle := h } h
    have hsent : sentByOne h { ty := AgentCommandType.SendMessage msg, agent_handle := h } =
        [msg] := by
      simp [sentByOne]
    rw [hp, hsent]

/-- A two-agent roster used as witness input for the delivery claim. -/
def sendDemoSim : Simulation Unit :=
  Simulation.new
    { agent_initializers :=
        [{ agent :=
             { id := "a", internal := ()
               on_message := fun _ _ _ =>
                 { self := (), commands := [], status := MessageProcessingStatus.Initialized }
               on_tick := fun _ _ =>
                 { self := (), commands := [], status := MessageProcessingStatus.Initialized } }
           options :=
             { initial_mode := AgentMode.Reactive, wake_mode := AgentMode.Reactive
               initial_queue := [] } },
         { agent :=
             { id := "b", internal := ()
               on_message := fun _ _ _ =>
                 { self := (), commands := [], status := MessageProcessingStatus.Initialized }
               on_tick := fun _ _ =>
                 { self := (), commands := [], status := MessageProcessingStatus.Initialized } }
           options :=
             { initial_mode := AgentMode.Reactive, wake_mode := AgentMode.Reactive
               initial_queue := [] } }]
      halt_check := fun _ => true
      starting_time := 0
      enable_queue_depth_metrics := false
      enable_agent_asleep_cycles_metric := false }

/-- The message sent in the witness: from agent `a` (handle 0) to agent `b`. -/
def sendDemoMsg : Message :=
  { queued_time := 0, completed_time := none, source := "a", destination := "b"
    custom_payload := none, interrupt := none }

/-- Witness for C6 at the two-agent roster: the message lands at the back of
the queue of `b` (slot 1) and in the produced log of the sender slot 0. -/
theorem C6_witness :
    ((process_one_command sendDemoSim
        { ty := AgentCommandType.SendMessage sendDemoMsg, agent_handle := 0 }).agent_states.get?
          1).map (fun st => st.queue) =
      (sendDemoSim.agent_states.get? 1).map (fun st => st.queue ++ [sendDemoMsg]) ∧
    ((process_one_command sendDemoSim
        { ty := AgentCommandType.SendMessage sendDemoMsg, agent_handle := 0 }).agent_states.get?
          0).map (fun st => st.produced) =
      (sendDemoSim.agent_states.get? 0).map (fun st => st.produced ++ [sendDemoMsg]) := by
  have hc := C6_send_message_delivery sendDemoSim sendDemoMsg 0 (by decide)
    (by
      intro rid hr
      have hr2 : some 1 = some rid := by
        rw [← hr]; rfl
      injection hr2 with hr2
      subst hr2
      decide)
  exact ⟨hc.1 1 (by rfl), hc.2⟩

theorem dispatchLocal_proactive {A : Type} (time : Nat) (ag : Agent A) (st : AgentState)
    (h : st.mode = AgentMode.Proactive) :
    dispatchLocal time ag st =
      ({ ag with internal := (ag.on_tick ag.internal
           { id := ag.id, time := time, state := { st with queue := st.queue.tail } }).self },
       { st with queue := st.queue.tail },
       (ag.on_tick ag.internal
         { id := ag.id, time := time, state := { st with queue := st.queue.tail } }).commands,
       true) := by
  simp [dispatchLocal, h]

theorem dispatchLocal_asleep {A : Type} (time : Nat) (ag : Agent A) (st : AgentState) (t : Nat)
    (h : st.mode = AgentMode.AsleepUntil t) :
    dispatchLocal time ag st = (ag, { st with queue := st.queue.tail }, [], false) := by
  simp [dispatchLocal, h]

theorem dispatchLocal_dead {A : Type} (time : Nat) (ag : Agent A) (st : AgentState)
    (h : st.mode = AgentMode.Dead) :
    dispatchLocal time ag st = (ag, { st with queue := st.queue.tail }, [], false) := by
  simp [dispatchLocal, h]

theorem dispatchLocal_reactive_empty {A : Type} (time : Nat) (ag : Agent A) (st : AgentState)
    (h : st.mode = AgentMode.Reactive) (hq : st.queue = []) :
    dispatchLocal time ag st = (ag, { st with queue := st.queue.tail }, [], false) := by
  simp [dispatchLocal, h, hq]

theorem dispatchLocal_reactive_requeue {A : Type} (time : Nat) (ag : Agent A) (st : AgentState)
    (m : Message) (rest : List Message)
    (h : st.mode = AgentMode.Reactive) (hq : st.queue = m :: rest)
    (hst : (ag.on_message ag.internal
        { id := ag.id, time := time, state := { st with queue := rest } } m).status =
          MessageProcessingStatus.Failed ∨
      (ag.on_message ag.internal
        { id := ag.id, time := time, state := { st with queue := rest } } m).status =
          MessageProcessingStatus.InProgress) :
    dispatchLocal time ag st =
      ({ ag with internal := (ag.on_message ag.internal
           { id := ag.id, time := time, state := { st with queue := rest } } m).self },
       { st with queue := m :: rest },
       (ag.on_message ag.internal
         { id := ag.id, time := time, state := { st with queue := rest } } m).commands,
       true) := by
  rcases hst with hst | hst <;> rw [h] at hst <;> simp [dispatchLocal, h, hq, hst]

theorem dispatchLocal_reactive_consume {A : Type} (time : Nat) (ag : Agent A) (st : AgentState)
    (m : Message) (rest : List Message)
    (h : st.mode = AgentMode.Reactive) (hq : st.queue = m :: rest)
    (hst : (ag.on_message ag.internal
        { id := ag.id, time := time, state := { st with queue := rest } } m).status =
          MessageProcessingStatus.Initialized ∨
      (ag.on_message ag.internal
        { id := ag.id, time := time, state := { st with queue := rest } } m).status =
          MessageProcessingStatus.Completed) :
    dispatchLocal time ag st =
      ({ ag with internal := (ag.on_message ag.internal
           { id := ag.id, time := time, state := { st with queue := rest } } m).self },
       { st with queue := rest
                 consumed := st.consumed ++ [{ m with completed_time := some time }] },
       (ag.on_message ag.internal
         { id := ag.id, time := time, state := { st with queue := rest } } m).commands,
       true) := by
  rcases hst with hst | hst <;> rw [h] at hst <;> simp [dispatchLocal, h, hq, hst]

/-- C4: during the per-agent dispatch loop, an agent whose mode is
`Proactive`, `AsleepUntil`, or `Dead` still has the front of its queue
popped, and the popped message is discarded: under the hypothesis that the
message occurs nowhere else in the state (and carries no completed stamp,
as every message the kernel routes does), after the dispatch step the
message is in no queue, no consumed log, and no produced log of any agent,
and the queue of the dispatched agent is exactly the tail. -/
theorem C4_nonreactive_front_message_discarded {A : Type} (s : Simulation A) (hwf : WF s)
    (i : Nat) (sti : AgentState) (m : Message) (rest : List Message)
    (hS : s.agent_states.get? i = some sti)
    (hmode : sti.mode = AgentMode.Proactive ∨ (∃ t, sti.mode = AgentMode.AsleepUntil t) ∨
      sti.mode = AgentMode.Dead)
    (hq : sti.queue = m :: rest)
    (hct : m.completed_time = none)
    (hmi : m ∉ rest ∧ m ∉ sti.consumed ∧ m ∉ sti.produced)
    (hother : ∀ j, j < s.agent_states.length → j ≠ i → ∀ st,
      s.agent_states.get? j = some st →
      m ∉ st.queue ∧ m ∉ st.consumed ∧ m ∉ st.produced) :
    ((dispatchAgents s).1.agent_states.get? i).map (fun st => st.queue) = some rest ∧
    (∀ j st, (dispatchAgents s).1.agent_states.get? j = some st →
      m ∉ st.queue ∧ m ∉ st.consumed ∧ m ∉ st.produced) := by
  have spec := dispatchAgents_spec s hwf
  have his : i < s.agent_states.length := (List.get?_eq_some.mp hS).1
  have hia : i < s.agents.length := by rw [← hwf.1]; exact his
  obtain ⟨ag, hA⟩ : ∃ ag, s.agents.get? i = some ag := by
    rcases hxq : s.agents.get? i with _ | ag
    · rw [List.get?_eq_none] at hxq; omega
    · exact ⟨ag, rfl⟩
  have hA2 : s.agents[i]? = some ag := by rw [← List.get?_eq_getElem?]; exact hA
  have hS2 : s.agent_states[i]? = some sti := by rw [← List.get?_eq_getElem?]; exact hS
  have hloci : localAt s i = some (dispatchLocal s.time ag sti) := by
    simp [localAt, hA2, hS2]
  have hsti1 : (dispatchLocal s.time ag sti).2.1 = { sti with queue := sti.queue.tail } := by
    rcases hmode with h | ⟨t, h⟩ | h
    · rw [dispatchLocal_proactive s.time ag sti h]
    · rw [dispatchLocal_asleep s.time ag sti t h]
    · rw [dispatchLocal_dead s.time ag sti h]
  constructor
  · rw [dispatchAgents_states_at s hwf i hia, hloci]
    simp [hsti1, hq]
  · intro j st hst
    have hjs : j < (dispatchAgents s).1.agent_states.length := (List.get?_eq_some.mp hst).1
    have hjs0 : j < s.agent_states.length := by rw [← spec.scalars.slen_eq]; exact hjs
    have hja : j < s.agents.length := by rw [← hwf.1]; exact hjs0
    obtain ⟨agj, hAj⟩ : ∃ agj, s.agents.get? j = some agj := by
      rcases hxq : s.agents.get? j with _ | agj
      · rw [List.get?_eq_none] at hxq; omega
      · exact ⟨agj, rfl⟩
    obtain ⟨stj, hSj⟩ : ∃ stj, s.agent_states.get? j = some stj := by
      rcases hxq : s.agent_states.get? j with _ | stj
      · rw [List.get?_eq_none] at hxq; omega
      · exact ⟨stj, rfl⟩
    have hAj2 : s.agents[j]? = some agj := by rw [← List.get?_eq_getElem?]; exact hAj
    have hSj2 : s.agent_states[j]? = some stj := by rw [← List.get?_eq_getElem?]; exact hSj
    have hlocj : localAt s j = some (dispatchLocal s.time agj stj) := by
      simp [localAt, hAj2, hSj2]
    have hst2 : st = (dispatchLocal s.time agj stj).2.1 := by
      have h1 := spec.states_at j (List.mem_range.mpr hja)
      rw [hst, hlocj] at h1
      simpa using h1
    by_cases hji : j = i
    · subst hji
      have hstj' : stj = sti := by
        rw [hS] at hSj
        injection hSj with h
        exact h.symm
      subst hstj'
      have hagj : agj = ag := by
        rw [hA] at hAj
        injection hAj with h
        exact h.symm
      subst hagj
      rw [hst2, hsti1, hq]
      exact ⟨hmi.1, hmi.2.1, hmi.2.2⟩
    · obtain ⟨hq0, hc0, hp0⟩ := hother j hjs0 hji stj hSj
      have htl : m ∉ stj.queue.tail := fun hm => hq0 (List.mem_of_mem_tail hm)
      cases hmo : stj.mode with
      | Proactive =>
        rw [hst2, dispatchLocal_proactive s.time agj stj hmo]
        exact ⟨htl, hc0, hp0⟩
      | AsleepUntil t =>
        rw [hst2, dispatchLocal_asleep s.time agj stj t hmo]
        exact ⟨htl, hc0, hp0⟩
      | Dead =>
        rw [hst2, dispatchLocal_dead s.time agj stj hmo]
        exact ⟨htl, hc0, hp0⟩
      | Reactive =>
        cases hqj : stj.queue with
        | nil =>
          rw [hst2, dispatchLocal_reactive_empty s.time agj stj hmo hqj]
          exact ⟨htl, hc0, hp0⟩
        | cons mj restj =>
          have hmj : m ∉ [{ mj with completed_time := some s.time }] := by
            intro hm
            rcases List.mem_singleton.mp hm with h
            have : m.completed_time = some s.time := by rw [h]
            rw [hct] at this
            exact Option.noConfusion this
          rcases hrs : (agj.on_message agj.internal
              { id := agj.id, time := s.time, state := { stj with queue := restj } }
              mj).status with _ | _ | _ | _
          · rw [hst2, dispatchLocal_reactive_consume s.time agj stj mj restj hmo hqj
              (Or.inl hrs)]
            refine ⟨?_, ?_, hp0⟩
            · intro hm
              exact hq0 (by rw [hqj]; exact List.mem_cons_of_mem mj hm)
            · intro hm
              rcases List.mem_append.mp hm with hm | hm
              · exact hc0 hm
              · exact hmj hm
          · rw [hst2, dispatchLocal_reactive_consume s.time agj stj mj restj hmo hqj
              (Or.inr hrs)]
            refine ⟨?_, ?_, hp0⟩
            · intro hm
              exact hq0 (by rw [hqj]; exact List.mem_cons_of_mem mj hm)
            · intro hm
              rcases List.mem_append.mp hm with hm | hm
              · exact hc0 hm
              · exact hmj hm
          · rw [hst2, dispatchLocal_reactive_requeue s.time agj stj mj restj hmo hqj
              (Or.inr hrs)]
            refine ⟨?_, hc0, hp0⟩
            intro hm
            exact hq0 (by rw [hqj]; exact hm)
          · rw [hst2, dispatchLocal_reactive_requeue s.time agj stj mj restj hmo hqj
              (Or.inl hrs)]
            refine ⟨?_, hc0, hp0⟩
            intro hm
            exact hq0 (by rw [hqj]; exact hm)

/-- The message parked in front of the proactive witness agent. -/
def c4Msg : Message :=
  { queued_time := 0, completed_time := none, source := "x", destination := "y"
    custom_payload := none, interrupt := none }

/-- A roster with a single proactive agent whose initial queue holds `c4Msg`. -/
def c4Sim : Simulation Unit :=
  Simulation.new
    { agent_initializers :=
        [{ agent :=
             { id := "p", internal := ()
               on_message := fun _ _ _ =>
                 { self := (), commands := [], status := MessageProcessingStatus.Initialized }
               on_tick := fun _ _ =>
                 { self := (), commands := [], status := MessageProcessingStatus.Initialized } }
           options :=
             { initial_mode := AgentMode.Proactive, wake_mode := AgentMode.Proactive
               initial_queue := [c4Msg] } }]
      halt_check := fun _ => true
      starting_time := 0
      enable_queue_depth_metrics := false
      enable_agent_asleep_cycles_metric := false }

/-- Witness for C4: in the one-proactive-agent roster the parked message is
popped by the dispatch step and afterwards occurs nowhere. -/
theorem C4_witness :
    ((dispatchAgents c4Sim).1.agent_states.get? 0).map (fun st => st.queue) = some [] ∧
    (∀ j st, (dispatchAgents c4Sim).1.agent_states.get? j = some st →
      c4Msg ∉ st.queue ∧ c4Msg ∉ st.consumed ∧ c4Msg ∉ st.produced) :=
  C4_nonreactive_front_message_discarded c4Sim (WF_new _ (by decide)) 0
    { mode := AgentMode.Proactive, wake_mode := AgentMode.Proactive
      queue := [c4Msg], consumed := [], produced := [] }
    c4Msg [] rfl (Or.inl rfl) rfl rfl ⟨by simp, by simp, by simp⟩
    (by
      intro j hj hne st hstj
      cases j with
      | zero => exact absurd rfl hne
      | succ jj => exact absurd hstj (by simp [c4Sim, Simulation.new]))

/-- The dispatch loop followed by the command-buffer drain of one tick
(everything the tick does after the wake check, except the time advance). -/
def dispatchThenDrain {A : Type} (s : Simulation A) : Simulation A :=
  process_command_buffer (dispatchAgents s).1 (dispatchAgents s).2.1

/-- C7: a `Reactive` agent dispatched with a popped message has the outcome
of its reported processing status resolved as follows: on `Failed` or
`InProgress` the very message is pushed back onto the front of its queue
(with its completed stamp untouched), so after the drain it still precedes
every message delivered later; on `Initialized` or `Completed` the message is
appended to the consumed log stamped with the current tick. -/
theorem C7_reactive_status_resolution {A : Type} (s : Simulation A) (hwf : WF s)
    (i : Nat) (ag : Agent A) (sti : AgentState) (m : Message) (rest : List Message)
    (hA : s.agents.get? i = some ag)
    (hS : s.agent_states.get? i = some sti)
    (hmode : sti.mode = AgentMode.Reactive)
    (hq : sti.queue = m :: rest) :
    (((ag.on_message ag.internal
        { id := ag.id, time := s.time, state := { sti with queue := rest } } m).status =
          MessageProcessingStatus.Failed ∨
      (ag.on_message ag.internal
        { id := ag.id, time := s.time, state := { sti with queue := rest } } m).status =
          MessageProcessingStatus.InProgress) →
      ∃ delivered,
        ((dispatchThenDrain s).agent_states.get? i).map (fun st => st.queue) =
          some (m :: (rest ++ delivered)) ∧
        ((dispatchThenDrain s).agent_states.get? i).map (fun st => st.consumed) =
          some sti.consumed) ∧
    (((ag.on_message ag.internal
        { id := ag.id, time := s.time, state := { sti with queue := rest } } m).status =
          MessageProcessingStatus.Initialized ∨
      (ag.on_message ag.internal
        { id := ag.id, time := s.time, state := { sti with queue := rest } } m).status =
          MessageProcessingStatus.Completed) →
      ∃ delivered,
        ((dispatchThenDrain s).agent_states.get? i).map (fun st => st.queue) =
          some (rest ++ delivered) ∧
        ((dispatchThenDrain s).agent_states.get? i).map (fun st => st.consumed) =
          some (sti.consumed ++ [{ m with completed_time := some s.time }])) := by
  have his : i < s.agent_states.length := (List.get?_eq_some.mp hS).1
  have hia : i < s.agents.length := by rw [← hwf.1]; exact his
  have hA2 : s.agents[i]? = some ag := by rw [← List.get?_eq_getElem?]; exact hA
  have hS2 : s.agent_states[i]? = some sti := by rw [← List.get?_eq_getElem?]; exact hS
  have hloci : localAt s i = some (dispatchLocal s.time ag sti) := by
    simp [localAt, hA2, hS2]
  have hdisp := dispatchAgents_states_at s hwf i hia
  rw [hloci] at hdisp
  constructor
  · intro hst
    have hlocal := dispatchLocal_reactive_requeue s.time ag sti m rest hmode hq hst
    have hdq := drain_queue ((dispatchAgents s).2.1).reverse (dispatchAgents s).1 i
    have hdc := drain_consumed ((dispatchAgents s).2.1).reverse (dispatchAgents s).1 i
    refine ⟨deliveredTo (dispatchAgents s).1.agent_id_index_map i
      ((dispatchAgents s).2.1).reverse, ?_, ?_⟩
    · show ((((dispatchAgents s).2.1).reverse.foldl process_one_command
        (dispatchAgents s).1).agent_states.get? i).map (fun st => st.queue) = _
      rw [hdq, hdisp, hlocal]
      simp
    · show ((((dispatchAgents s).2.1).reverse.foldl process_one_command
        (dispatchAgents s).1).agent_states.get? i).map (fun st => st.consumed) = _
      rw [hdc, hdisp, hlocal]
      simp
  · intro hst
    have hlocal := dispatchLocal_reactive_consume s.time ag sti m rest hmode hq hst
    have hdq := drain_queue ((dispatchAgents s).2.1).reverse (dispatchAgents s).1 i
    have hdc := drain_consumed ((dispatchAgents s).2.1).reverse (dispatchAgents s).1 i
    refine ⟨deliveredTo (dispatchAgents s).1.agent_id_index_map i
      ((dispatchAgents s).2.1).reverse, ?_, ?_⟩
    · show ((((dispatchAgents s).2.1).reverse.foldl process_one_command
        (dispatchAgents s).1).agent_states.get? i).map (fun st => st.queue) = _
      rw [hdq, hdisp, hlocal]
      simp
    · show ((((dispatchAgents s).2.1).reverse.foldl process_one_command
        (dispatchAgents s).1).agent_states.get? i).map (fun st => st.consumed) = _
      rw [hdc, hdisp, hlocal]
      simp

theorem tick_time {A : Type} (s : Simulation A) (hwf : WF s) :
    (tick s).1.time = s.time + 1 := by
  have h1 := WF_wakeup s hwf
  have hs := (dispatchAgents_spec _ h1).scalars.time_eq
  have hd := (drain_scalars
    ((dispatchAgents (wakeup_agents_scheduled_to_wakeup_now s)).2.1).reverse
    (dispatchAgents (wakeup_agents_scheduled_to_wakeup_now s)).1).1
  show (((dispatchAgents (wakeup_agents_scheduled_to_wakeup_now s)).2.1).reverse.foldl
    process_one_command (dispatchAgents (wakeup_agents_scheduled_to_wakeup_now s)).1).time + 1 =
      s.time + 1
  rw [hd, hs]
  rfl

theorem evAt_invoked {A : Type} (s1 : Simulation A) (j : Nat)
    (r : Agent A × AgentState × List AgentCommandType × Bool)
    (hl : localAt s1 j = some r) (hi : r.2.2.2 = true) :
    evAt s1 j = [(s1.time, j)] := by
  simp [evAt, hl, hi]

theorem evAt_not_invoked {A : Type} (s1 : Simulation A) (j : Nat)
    (r : Agent A × AgentState × List AgentCommandType × Bool)
    (hl : localAt s1 j = some r) (hi : r.2.2.2 = false) :
    evAt s1 j = [] := by
  simp [evAt, hl, hi]

theorem mem_tick_events {A : Type} (s : Simulation A) (hwf : WF s) (p : Nat × Nat)
    (hp : p ∈ (tick s).2) :
    ∃ j r, localAt (wakeup_agents_scheduled_to_wakeup_now s) j = some r ∧
      r.2.2.2 = true ∧ p = (s.time, j) := by
  have h1 := WF_wakeup s hwf
  have he := dispatchAgents_events _ h1
  have hp2 : p ∈ (dispatchAgents (wakeup_agents_scheduled_to_wakeup_now s)).2.2 := hp
  rw [he] at hp2
  obtain ⟨j, _, hpj⟩ := List.mem_flatMap.mp hp2
  cases hl : localAt (wakeup_agents_scheduled_to_wakeup_now s) j with
  | none => simp [evAt, hl] at hpj
  | some r =>
    by_cases hi : r.2.2.2 = true
    · rw [evAt_invoked _ j r hl hi] at hpj
      exact ⟨j, r, hl, hi, List.mem_singleton.mp hpj⟩
    · rw [evAt_not_invoked _ j r hl (by
        cases hb : r.2.2.2
        · rfl
        · exact absurd hb hi)] at hpj
      simp at hpj
theorem mem_dispatch_buffer_handle {A : Type} (s1 : Simulation A) (hwf1 : WF s1)
    (c : AgentCommand) (hc : c ∈ (dispatchAgents s1).2.1) :
    ∃ j r, localAt s1 j = some r ∧ c.agent_handle = j ∧ c.ty ∈ r.2.2.1 := by
  rw [dispatchAgents_buffer _ hwf1] at hc
  obtain ⟨j, _, hcj⟩ := List.mem_flatMap.mp hc
  cases hl : localAt s1 j with
  | none => simp [cmdsAt, hl] at hcj
  | some r =>
    simp only [cmdsAt, hl] at hcj
    obtain ⟨ty, hty, hcdef⟩ := List.mem_map.mp hcj
    refine ⟨j, r, hl, ?_, ?_⟩
    · rw [← hcdef]
    · rw [← hcdef]; exact hty

theorem tick_asleep_preserved {A : Type} (s : Simulation A) (hwf : WF s)
    (i t : Nat) (sti : AgentState)
    (hS : s.agent_states.get? i = some sti)
    (hmode : sti.mode = AgentMode.AsleepUntil t)
    (hlt : s.time < t) :
    (∃ sti2, (tick s).1.agent_states.get? i = some sti2 ∧
      sti2.mode = AgentMode.AsleepUntil t) ∧
    (∀ p, p ∈ (tick s).2 → p.2 ≠ i) := by
  have h1 := WF_wakeup s hwf
  have his : i < s.agent_states.length := (List.get?_eq_some.mp hS).1
  have hia : i < s.agents.length := by rw [← hwf.1]; exact his
  obtain ⟨ag, hA⟩ : ∃ ag, s.agents.get? i = some ag := by
    rcases hxq : s.agents.get? i with _ | ag
    · rw [List.get?_eq_none] at hxq; omega
    · exact ⟨ag, rfl⟩
  have hwake : wakeupState s.time sti = sti := by
    rw [wakeupState, hmode]
    simp [Nat.not_le.mpr hlt]
  have hS1 : (wakeup_agents_scheduled_to_wakeup_now s).agent_states.get? i = some sti := by
    rw [wakeup_states_at, hS]
    simp [hwake]
  have hA1 : (wakeup_agents_scheduled_to_wakeup_now s).agents.get? i = some ag := hA
  have hA12 : (wakeup_agents_scheduled_to_wakeup_now s).agents[i]? = some ag := by
    rw [← List.get?_eq_getElem?]; exact hA1
  have hS12 : (wakeup_agents_scheduled_to_wakeup_now s).agent_states[i]? = some sti := by
    rw [← List.get?_eq_getElem?]; exact hS1
  have hloc : localAt (wakeup_agents_scheduled_to_wakeup_now s) i =
      some (ag, { sti with queue := sti.queue.tail }, [], false) := by
    have : localAt (wakeup_agents_scheduled_to_wakeup_now s) i =
        some (dispatchLocal (wakeup_agents_scheduled_to_wakeup_now s).time ag sti) := by
      simp [localAt, hA12, hS12]
    rw [this, dispatchLocal_asleep _ ag sti t hmode]
  constructor
  · -- the state of slot i after the full tick still sleeps until t
    have hdisp := dispatchAgents_states_at _ h1 i hia
    rw [hloc] at hdisp
    have hnos : ∀ c ∈ ((dispatchAgents (wakeup_agents_scheduled_to_wakeup_now s)).2.1).reverse,
        (∃ d, c.ty = AgentCommandType.Sleep d) → c.agent_handle ≠ i := by
      intro c hc hsleep hhi
      obtain ⟨j, r, hlj, hhj, hty⟩ := mem_dispatch_buffer_handle _ h1 c (List.mem_reverse.mp hc)
      rw [hhi] at hhj
      rw [← hhj] at hlj
      rw [hloc] at hlj
      injection hlj with hlj
      rw [← hlj] at hty
      simp at hty
    have hmm := drain_mode ((dispatchAgents (wakeup_agents_scheduled_to_wakeup_now s)).2.1).reverse
      (dispatchAgents (wakeup_agents_scheduled_to_wakeup_now s)).1 i hnos
    rw [hdisp] at hmm
    have htickst : (tick s).1.agent_states.get? i =
        (((dispatchAgents (wakeup_agents_scheduled_to_wakeup_now s)).2.1).reverse.foldl
          process_one_command (dispatchAgents (wakeup_agents_scheduled_to_wakeup_now s)).1
          ).agent_states.get? i := rfl
    rw [htickst]
    cases hfin : (((dispatchAgents (wakeup_agents_scheduled_to_wakeup_now s)).2.1).reverse.foldl
        process_one_command (dispatchAgents (wakeup_agents_scheduled_to_wakeup_now s)).1
        ).agent_states.get? i with
    | none => rw [hfin] at hmm; exact absurd hmm (by simp)
    | some st2 =>
      rw [hfin] at hmm
      simp only [Option.map_some'] at hmm
      injection hmm with hmm
      exact ⟨st2, rfl, by rw [hmm]; exact hmode⟩
  · intro p hp hpi
    obtain ⟨j, r, hlj, hi2, hpe⟩ := mem_tick_events s hwf p hp
    have : j = i := by rw [hpe] at hpi; exact hpi
    rw [this, hloc] at hlj
    injection hlj with hlj
    rw [← hlj] at hi2
    simp at hi2

theorem runAux_succ {A : Type} (fuel : Nat) (s : Simulation A) :
    runAux (fuel + 1) s =
      (if s.halt_check s.view then (s, [])
       else ((runAux fuel (tick s).1).1, (tick s).2 ++ (runAux fuel (tick s).1).2)) := rfl

theorem runAux_events_time_ge {A : Type} :
    ∀ (fuel : Nat) (s : Simulation A), WF s →
    ∀ p ∈ (runAux fuel s).2, s.time ≤ p.1 := by
  intro fuel
  induction fuel with
  | zero => intro s _ p hp; simp [runAux] at hp
  | succ n ih =>
    intro s hwf p hp
    rw [runAux_succ] at hp
    by_cases hh : s.halt_check s.view
    · rw [if_pos hh] at hp; simp at hp
    · rw [if_neg hh] at hp
      rcases List.mem_append.mp hp with hp | hp
      · obtain ⟨j, r, _, _, hpe⟩ := mem_tick_events s hwf p hp
        rw [hpe]
      · have := ih (tick s).1 (WF_tick s hwf) p hp
        rw [tick_time s hwf] at this
        omega

theorem runAux_asleep_not_dispatched {A : Type} :
    ∀ (fuel : Nat) (s : Simulation A), WF s →
    ∀ (i t : Nat) (sti : AgentState), s.agent_states.get? i = some sti →
    sti.mode = AgentMode.AsleepUntil t →
    ∀ p ∈ (runAux fuel s).2, p.2 = i → t ≤ p.1 := by
  intro fuel
  induction fuel with
  | zero => intro s _ i t sti _ _ p hp; simp [runAux] at hp
  | succ n ih =>
    intro s hwf i t sti hS hmode p hp hpi
    rw [runAux_succ] at hp
    by_cases hh : s.halt_check s.view
    · rw [if_pos hh] at hp; simp at hp
    · rw [if_neg hh] at hp
      by_cases ht : t ≤ s.time
      · rcases List.mem_append.mp hp with hp | hp
        · obtain ⟨j, r, _, _, hpe⟩ := mem_tick_events s hwf p hp
          rw [hpe]
          exact ht
        · have := runAux_events_time_ge n (tick s).1 (WF_tick s hwf) p hp
          rw [tick_time s hwf] at this
          omega
      · have hlt : s.time < t := Nat.not_le.mp ht
        obtain ⟨⟨sti2, hS2, hmode2⟩, hnoi⟩ :=
          tick_asleep_preserved s hwf i t sti hS hmode hlt
        rcases List.mem_append.mp hp with hp | hp
        · exact absurd hpi (hnoi p hp)
        · exact ih (tick s).1 (WF_tick s hwf) i t sti2 hS2 hmode2 p hp hpi

/-- C8: an agent whose mode is `AsleepUntil t` never has its behaviour
invoked at any tick with time < t (the ghost invocation log of any run prefix
contains no entry for it before `t`), and at a tick with time >= t the wake
check sets its mode to its configured wake mode before any agent is
dispatched; a woken `Proactive` agent is dispatched in that same tick. -/
theorem C8_asleep_until_wake_semantics {A : Type} (s : Simulation A) (hwf : WF s)
    (i t : Nat) (sti : AgentState)
    (hS : s.agent_states.get? i = some sti)
    (hmode : sti.mode = AgentMode.AsleepUntil t) :
    (∀ fuel p, p ∈ (runAux fuel s).2 → p.2 = i → t ≤ p.1) ∧
    (t ≤ s.time →
      ((wakeup_agents_scheduled_to_wakeup_now s).agent_states.get? i).map (fun st => st.mode) =
        some sti.wake_mode ∧
      (sti.wake_mode = AgentMode.Proactive → (s.time, i) ∈ (tick s).2)) := by
  constructor
  · intro fuel p hp hpi
    exact runAux_asleep_not_dispatched fuel s hwf i t sti hS hmode p hp hpi
  · intro ht
    have hwake : wakeupState s.time sti = { sti with mode := sti.wake_mode } := by
      simp [wakeupState, hmode, ht]
    have hS1 : (wakeup_agents_scheduled_to_wakeup_now s).agent_states.get? i =
        some { sti with mode := sti.wake_mode } := by
      rw [wakeup_states_at, hS]
      simp [hwake]
    constructor
    · rw [hS1]
      rfl
    · intro hpro
      have h1 := WF_wakeup s hwf
      have his : i < s.agent_states.length := (List.get?_eq_some.mp hS).1
      have hia : i < s.agents.length := by rw [← hwf.1]; exact his
      obtain ⟨ag, hA⟩ : ∃ ag, s.agents.get? i = some ag := by
        rcases hxq : s.agents.get? i with _ | ag
        · rw [List.get?_eq_none] at hxq; omega
        · exact ⟨ag, rfl⟩
      have hA12 : (wakeup_agents_scheduled_to_wakeup_now s).agents[i]? = some ag := by
        rw [← List.get?_eq_getElem?]; exact hA
      have hS12 : (wakeup_agents_scheduled_to_wakeup_now s).agent_states[i]? =
          some { sti with mode := sti.wake_mode } := by
        rw [← List.get?_eq_getElem?]; exact hS1
      have hloc : localAt (wakeup_agents_scheduled_to_wakeup_now s) i =
          some (dispatchLocal (wakeup_agents_scheduled_to_wakeup_now s).time ag
            { sti with mode := sti.wake_mode }) := by
        simp [localAt, hA12, hS12]
      have hpro2 : ({ sti with mode := sti.wake_mode } : AgentState).mode =
          AgentMode.Proactive := hpro
      rw [dispatchLocal_proactive _ ag _ hpro2] at hloc
      have hev : evAt (wakeup_agents_scheduled_to_wakeup_now s) i =
          [((wakeup_agents_scheduled_to_wakeup_now s).time, i)] :=
        evAt_invoked _ i _ hloc rfl
      show (s.time, i) ∈ (dispatchAgents (wakeup_agents_scheduled_to_wakeup_now s)).2.2
      rw [dispatchAgents_events _ h1]
      refine List.mem_flatMap.mpr ⟨i, List.mem_range.mpr hia, ?_⟩
      rw [hev]
      exact List.mem_singleton.mpr rfl

/-- A roster with one agent asleep until tick 2 with wake mode `Proactive`,
at a simulation clock already at 2. -/
def c8Sim : Simulation Unit :=
  Simulation.new
    { agent_initializers :=
        [{ agent :=
             { id := "z", internal := ()
               on_message := fun _ _ _ =>
                 { self := (), commands := [], status := MessageProcessingStatus.Initialized }
               on_tick := fun _ _ =>
                 { self := (), commands := [], status := MessageProcessingStatus.Initialized } }
           options :=
             { initial_mode := AgentMode.AsleepUntil 2, wake_mode := AgentMode.Proactive
               initial_queue := [] } }]
      halt_check := fun _ => false
      starting_time := 2
      enable_queue_depth_metrics := false
      enable_agent_asleep_cycles_metric := false }

/-- Witness for C8 at the concrete sleeping agent. -/
theorem C8_witness :
    (∀ fuel p, p ∈ (runAux fuel c8Sim).2 → p.2 = 0 → 2 ≤ p.1) ∧
    (2 ≤ c8Sim.time →
      ((wakeup_agents_scheduled_to_wakeup_now c8Sim).agent_states.get? 0).map
          (fun st => st.mode) = some AgentMode.Proactive ∧
      (AgentMode.Proactive = AgentMode.Proactive → (c8Sim.time, 0) ∈ (tick c8Sim).2)) :=
  C8_asleep_until_wake_semantics c8Sim (WF_new _ (by decide)) 0 2
    { mode := AgentMode.AsleepUntil 2, wake_mode := AgentMode.Proactive
      queue := [], consumed := [], produced := [] } rfl rfl

/-- Remove the completed stamp of a message (the stamp is the only field the
kernel mutates when archiving a consumed message). -/
def stripStamp (m : Message) : Message := { m with completed_time := none }

theorem stripStamp_stamp (m : Message) (t : Nat) :
    stripStamp { m with completed_time := some t } = stripStamp m := rfl

theorem dispatchLocal_on_message {A : Type} (time : Nat) (ag : Agent A) (st : AgentState) :
    (dispatchLocal time ag st).1.on_message = ag.on_message := by
  cases hm : st.mode with
  | Proactive => simp [dispatchLocal, hm]
  | Reactive =>
    cases hq : st.queue.head? with
    | none => simp [dispatchLocal, hm, hq]
    | some msg => simp [dispatchLocal, hm, hq]
  | AsleepUntil w => simp [dispatchLocal, hm]
  | Dead => simp [dispatchLocal, hm]

theorem dispatchLocal_reactive_nofail {A : Type} (time : Nat) (ag : Agent A) (st : AgentState)
    (hmode : st.mode = AgentMode.Reactive)
    (hnf : ∀ a ctx msg, (ag.on_message a ctx msg).status ≠ MessageProcessingStatus.Failed ∧
      (ag.on_message a ctx msg).status ≠ MessageProcessingStatus.InProgress)
    (hns : ∀ a ctx msg d, AgentCommandType.Sleep d ∉ (ag.on_message a ctx msg).commands) :
    (dispatchLocal time ag st).2.1.mode = AgentMode.Reactive ∧
    ((dispatchLocal time ag st).2.1.consumed.map stripStamp ++
        (dispatchLocal time ag st).2.1.queue.map stripStamp =
      st.consumed.map stripStamp ++ st.queue.map stripStamp) ∧
    (∀ d, AgentCommandType.Sleep d ∉ (dispatchLocal time ag st).2.2.1) ∧
    (dispatchLocal time ag st).1.on_message = ag.on_message := by
  cases hq : st.queue with
  | nil =>
    rw [dispatchLocal_reactive_empty time ag st hmode hq]
    refine ⟨hmode, ?_, by simp, rfl⟩
    simp [hq]
  | cons m rest =>
    have hst := hnf ag.internal
      { id := ag.id, time := time, state := { st with queue := rest } } m
    rcases hrs : (ag.on_message ag.internal
        { id := ag.id, time := time, state := { st with queue := rest } } m).status with
      _ | _ | _ | _
    · rw [dispatchLocal_reactive_consume time ag st m rest hmode hq (Or.inl hrs)]
      refine ⟨hmode, ?_, ?_, rfl⟩
      · simp [hq, stripStamp_stamp]
      · intro d
        exact hns ag.internal
          { id := ag.id, time := time, state := { st with queue := rest } } m d
    · rw [dispatchLocal_reactive_consume time ag st m rest hmode hq (Or.inr hrs)]
      refine ⟨hmode, ?_, ?_, rfl⟩
      · simp [hq, stripStamp_stamp]
      · intro d
        exact hns ag.internal
          { id := ag.id, time := time, state := { st with queue := rest } } m d
    · exact absurd hrs hst.2
    · exact absurd hrs hst.1

theorem tick_reactive_fifo {A : Type} (s : Simulation A) (hwf : WF s)
    (i : Nat) (ag : Agent A) (sti : AgentState)
    (hA : s.agents.get? i = some ag)
    (hS : s.agent_states.get? i = some sti)
    (hmode : sti.mode = AgentMode.Reactive)
    (hnf : ∀ a ctx msg, (ag.on_message a ctx msg).status ≠ MessageProcessingStatus.Failed ∧
      (ag.on_message a ctx msg).status ≠ MessageProcessingStatus.InProgress)
    (hns : ∀ a ctx msg d, AgentCommandType.Sleep d ∉ (ag.on_message a ctx msg).commands) :
    ∃ ag2 sti2 delivered,
      (tick s).1.agents.get? i = some ag2 ∧ ag2.on_message = ag.on_message ∧
      (tick s).1.agent_states.get? i = some sti2 ∧ sti2.mode = AgentMode.Reactive ∧
      sti2.consumed.map stripStamp ++ sti2.queue.map stripStamp =
        (sti.consumed.map stripStamp ++ sti.queue.map stripStamp) ++ delivered := by
  have h1 := WF_wakeup s hwf
  have his : i < s.agent_states.length := (List.get?_eq_some.mp hS).1
  have hia : i < s.agents.length := by rw [← hwf.1]; exact his
  have hwake : wakeupState s.time sti = sti := by
    simp [wakeupState, hmode]
  have hS1 : (wakeup_agents_scheduled_to_wakeup_now s).agent_states.get? i = some sti := by
    rw [wakeup_states_at, hS]
    simp [hwake]
  have hA12 : (wakeup_agents_scheduled_to_wakeup_now s).agents[i]? = some ag := by
    rw [← List.get?_eq_getElem?]; exact hA
  have hS12 : (wakeup_agents_scheduled_to_wakeup_now s).agent_states[i]? = some sti := by
    rw [← List.get?_eq_getElem?]; exact hS1
  have hloc : localAt (wakeup_agents_scheduled_to_wakeup_now s) i =
      some (dispatchLocal (wakeup_agents_scheduled_to_wakeup_now s).time ag sti) := by
    simp [localAt, hA12, hS12]
  obtain ⟨hm2, hE2, hnos2, hom2⟩ :=
    dispatchLocal_reactive_nofail (wakeup_agents_scheduled_to_wakeup_now s).time ag sti
      hmode hnf hns
  have hdispst := dispatchAgents_states_at _ h1 i (by exact hia)
  rw [hloc] at hdispst
  simp only [Option.map_some'] at hdispst
  have hdispag := (dispatchAgents_spec _ h1).agents_at i (List.mem_range.mpr hia)
  rw [hloc] at hdispag
  simp only [Option.map_some'] at hdispag
  -- no Sleep command in the drained buffer is tagged with handle i
  have hnosbuf : ∀ c ∈ ((dispatchAgents (wakeup_agents_scheduled_to_wakeup_now s)).2.1).reverse,
      (∃ d, c.ty = AgentCommandType.Sleep d) → c.agent_handle ≠ i := by
    intro c hc hsleep hhi
    obtain ⟨j, r, hlj, hhj, hty⟩ :=
      mem_dispatch_buffer_handle _ h1 c (List.mem_reverse.mp hc)
    rw [hhi] at hhj
    rw [← hhj] at hlj
    rw [hloc] at hlj
    injection hlj with hlj
    rw [← hlj] at hty
    obtain ⟨d, hd⟩ := hsleep
    rw [hd] at hty
    exact hnos2 d hty
  have hdq := drain_queue ((dispatchAgents (wakeup_agents_scheduled_to_wakeup_now s)).2.1).reverse
    (dispatchAgents (wakeup_agents_scheduled_to_wakeup_now s)).1 i
  have hdc := drain_consumed
    ((dispatchAgents (wakeup_agents_scheduled_to_wakeup_now s)).2.1).reverse
    (dispatchAgents (wakeup_agents_scheduled_to_wakeup_now s)).1 i
  have hdm := drain_mode ((dispatchAgents (wakeup_agents_scheduled_to_wakeup_now s)).2.1).reverse
    (dispatchAgents (wakeup_agents_scheduled_to_wakeup_now s)).1 i hnosbuf
  rw [hdispst] at hdq hdc hdm
  simp only [Option.map_some'] at hdq hdc hdm
  have htickst : (tick s).1.agent_states.get? i =
      (((dispatchAgents (wakeup_agents_scheduled_to_wakeup_now s)).2.1).reverse.foldl
        process_one_command (dispatchAgents (wakeup_agents_scheduled_to_wakeup_now s)).1
        ).agent_states.get? i := rfl
  have htickag : (tick s).1.agents =
      (((dispatchAgents (wakeup_agents_scheduled_to_wakeup_now s)).2.1).reverse.foldl
        process_one_command (dispatchAgents (wakeup_agents_scheduled_to_wakeup_now s)).1
        ).agents := rfl
  cases hfin : (((dispatchAgents (wakeup_agents_scheduled_to_wakeup_now s)).2.1).reverse.foldl
      process_one_command (dispatchAgents (wakeup_agents_scheduled_to_wakeup_now s)).1
      ).agent_states.get? i with
  | none => rw [hfin] at hdq; exact absurd hdq (by simp)
  | some sti2 =>
    rw [hfin] at hdq hdc hdm
    simp only [Option.map_some'] at hdq hdc hdm
    injection hdq with hdq
    injection hdc with hdc
    injection hdm with hdm
    refine ⟨(dispatchLocal (wakeup_agents_scheduled_to_wakeup_now s).time ag sti).1, sti2,
      (deliveredTo (dispatchAgents
        (wakeup_agents_scheduled_to_wakeup_now s)).1.agent_id_index_map i
        ((dispatchAgents (wakeup_agents_scheduled_to_wakeup_now s)).2.1).reverse).map stripStamp,
      ?_, hom2, ?_, ?_, ?_⟩
    · rw [htickag,
        (drain_scalars ((dispatchAgents (wakeup_agents_scheduled_to_wakeup_now s)).2.1).reverse
          (dispatchAgents (wakeup_agents_scheduled_to_wakeup_now s)).1).2.1]
      exact hdispag
    · rw [htickst]; exact hfin
    · rw [hdm]; exact hm2
    · rw [hdc, hdq]
      rw [List.map_append, ← List.append_assoc, hE2]

theorem runAux_reactive_fifo {A : Type} (f : A → AgentCtx → Message → AgentResult A)
    (hnf : ∀ a ctx msg, (f a ctx msg).status ≠ MessageProcessingStatus.Failed ∧
      (f a ctx msg).status ≠ MessageProcessingStatus.InProgress)
    (hns : ∀ a ctx msg d, AgentCommandType.Sleep d ∉ (f a ctx msg).commands) :
    ∀ (fuel : Nat) (s : Simulation A), WF s →
    ∀ (i : Nat) (ag : Agent A) (sti : AgentState),
      s.agents.get? i = some ag → ag.on_message = f →
      s.agent_states.get? i = some sti → sti.mode = AgentMode.Reactive →
    ∃ sti2 delivered,
      (runAux fuel s).1.agent_states.get? i = some sti2 ∧
      sti2.consumed.map stripStamp ++ sti2.queue.map stripStamp =
        (sti.consumed.map stripStamp ++ sti.queue.map stripStamp) ++ delivered := by
  intro fuel
  induction fuel with
  | zero =>
    intro s _ i ag sti _ _ hS _
    exact ⟨sti, [], hS, by simp⟩
  | succ n ih =>
    intro s hwf i ag sti hA hmf hS hmode
    rw [runAux_succ]
    by_cases hh : s.halt_check s.view
    · rw [if_pos hh]
      exact ⟨sti, [], hS, by simp⟩
    · rw [if_neg hh]
      have hnf2 : ∀ a ctx msg,
          (ag.on_message a ctx msg).status ≠ MessageProcessingStatus.Failed ∧
          (ag.on_message a ctx msg).status ≠ MessageProcessingStatus.InProgress := by
        rw [hmf]; exact hnf
      have hns2 : ∀ a ctx msg d, AgentCommandType.Sleep d ∉ (ag.on_message a ctx msg).commands := by
        rw [hmf]; exact hns
      obtain ⟨ag2, sti2, d1, hag2, hom2, hst2, hmode2, hE2⟩ :=
        tick_reactive_fifo s hwf i ag sti hA hS hmode hnf2 hns2
      obtain ⟨sti3, d2, hst3, hE3⟩ :=
        ih (tick s).1 (WF_tick s hwf) i ag2 sti2 hag2 (hom2.trans hmf) hst2 hmode2
      exact ⟨sti3, d1 ++ d2, hst3, by rw [hE3, hE2]; simp⟩

/-- C9: a `Reactive` agent whose behaviour never reports `Failed` or
`InProgress` (and never requests sleep, so it stays `Reactive`) consumes
messages in arrival order: at any point of the run, its consumed log followed
by its remaining queue — with the completed stamps removed — equals its
initial consumed log and queue followed by the messages delivered to it, in
delivery order.  In particular the consumed log is always a prefix of the
arrival order of its messages. -/
theorem C9_fifo_consumption_order {A : Type} (s : Simulation A) (hwf : WF s)
    (i : Nat) (ag : Agent A) (sti : AgentState)
    (hA : s.agents.get? i = some ag)
    (hS : s.agent_states.get? i = some sti)
    (hmode : sti.mode = AgentMode.Reactive)
    (hnf : ∀ a ctx msg, (ag.on_message a ctx msg).status ≠ MessageProcessingStatus.Failed ∧
      (ag.on_message a ctx msg).status ≠ MessageProcessingStatus.InProgress)
    (hns : ∀ a ctx msg d, AgentCommandType.Sleep d ∉ (ag.on_message a ctx msg).commands) :
    ∀ fuel, ∃ sti2 delivered,
      (runAux fuel s).1.agent_states.get? i = some sti2 ∧
      sti2.consumed.map stripStamp ++ sti2.queue.map stripStamp =
        (sti.consumed.map stripStamp ++ sti.queue.map stripStamp) ++ delivered :=
  fun fuel =>
    runAux_reactive_fifo ag.on_message hnf hns fuel s hwf i ag sti hA rfl hS hmode

/-- The reactive witness agent: consumes every message with the default
`Initialized` status and no commands. -/
def c9Agent : Agent Unit :=
  { id := "c", internal := ()
    on_message := fun _ _ _ =>
      { self := (), commands := [], status := MessageProcessingStatus.Initialized }
    on_tick := fun _ _ =>
      { self := (), commands := [], status := MessageProcessingStatus.Initialized } }

/-- A roster with the single never-failing reactive agent holding one queued
message. -/
def c9Sim : Simulation Unit :=
  Simulation.new
    { agent_initializers :=
        [{ agent := c9Agent
           options :=
             { initial_mode := AgentMode.Reactive, wake_mode := AgentMode.Reactive
               initial_queue := [c4Msg] } }]
      halt_check := fun _ => false
      starting_time := 0
      enable_queue_depth_metrics := false
      enable_agent_asleep_cycles_metric := false }

/-- Witness for C9 at the concrete never-failing consumer, for a two-tick
run prefix. -/
theorem C9_witness :
    ∃ sti2 delivered,
      (runAux 2 c9Sim).1.agent_states.get? 0 = some sti2 ∧
      sti2.consumed.map stripStamp ++ sti2.queue.map stripStamp =
        (([] : List Message).map stripStamp ++ [c4Msg].map stripStamp) ++ delivered :=
  C9_fifo_consumption_order c9Sim (WF_new _ (by decide)) 0 c9Agent
    { mode := AgentMode.Reactive, wake_mode := AgentMode.Reactive
      queue := [c4Msg], consumed := [], produced := [] }
    rfl rfl rfl
    (fun _ _ _ => ⟨by simp [c9Agent], by simp [c9Agent]⟩)
    (fun _ _ _ _ => by simp [c9Agent])
    2

/-- A reactive agent that always reports `Failed`. -/
def c7Agent : Agent Unit :=
  { id := "r", internal := ()
    on_message := fun _ _ _ =>
      { self := (), commands := [], status := MessageProcessingStatus.Failed }
    on_tick := fun _ _ =>
      { self := (), commands := [], status := MessageProcessingStatus.Initialized } }

/-- A roster with the single always-failing reactive agent holding one
queued message. -/
def c7Sim : Simulation Unit :=
  Simulation.new
    { agent_initializers :=
        [{ agent := c7Agent
           options :=
             { initial_mode := AgentMode.Reactive, wake_mode := AgentMode.Reactive
               initial_queue := [c4Msg] } }]
      halt_check := fun _ => false
      starting_time := 0
      enable_queue_depth_metrics := false
      enable_agent_asleep_cycles_metric := false }

/-- Witness for C7 at the always-failing consumer: after dispatch and drain
the failed message is still at the front of the queue, unconsumed. -/
theorem C7_witness :
    ∃ delivered,
      ((dispatchThenDrain c7Sim).agent_states.get? 0).map (fun st => st.queue) =
        some (c4Msg :: ([] ++ delivered)) ∧
      ((dispatchThenDrain c7Sim).agent_states.get? 0).map (fun st => st.consumed) =
        some ([] : List Message) :=
  (C7_reactive_status_resolution c7Sim (WF_new _ (by decide)) 0 c7Agent
    { mode := AgentMode.Reactive, wake_mode := AgentMode.Reactive
      queue := [c4Msg], consumed := [], produced := [] }
    c4Msg [] rfl rfl rfl rfl).1 (Or.inl rfl)
